import Mathlib

/-!
Verification of the where2go scraper engine (website-scrapers/) against its
natural-language specification.

The Python sources are shallowly embedded: every function is translated to a
total executable Lean definition.  `datetime.now()` is made explicit through a
`Today` parameter; network I/O (`fetch_page`) becomes an oracle parameter of
type `String → Option Soup`; Python `re` patterns are embedded as dedicated
string matchers reproducing leftmost-search / greedy-with-backtracking
semantics for the concrete patterns appearing in the code (wherever maximal
munch is used below, the following regex token is disjoint from the repeated
class, so maximal munch coincides with backtracking semantics); Python dicts
are structures whose `get`-with-default keys are `Option (Option _)` valued
(outer `none` = key absent, `some none` = key present holding `None`).
-/

namespace W2G

/-- Explicit stand-in for `datetime.now()`: the current calendar date. -/
structure Today where
  year : Nat
  month : Nat
  day : Nat
  deriving Repr, DecidableEq

/-! ## Character classes (Python `re` classes and `str` methods) -/

/-- Python regex `\d` (ASCII digits, as produced/consumed by the scrapers). -/
def isDigitC (c : Char) : Bool :=
  48 ≤ c.toNat && c.toNat ≤ 57

/-- Python `\s` / `str` whitespace (ASCII repertoire of the scraped pages). -/
def isSpaceC (c : Char) : Bool :=
  c = ' ' || c = '\t' || c = '\n' || c = '\r' || c = '\x0b' || c = '\x0c'

/-- Python regex `\w` restricted to the repertoire the scrapers meet:
ASCII letters, digits, underscore and the German letters. -/
def isWordC (c : Char) : Bool :=
  isDigitC c || (97 ≤ c.toNat && c.toNat ≤ 122) || (65 ≤ c.toNat && c.toNat ≤ 90) ||
    c = '_' || c = 'ä' || c = 'ö' || c = 'ü' || c = 'ß'

/-- Python `str.lower` on the repertoire the scrapers meet (ASCII letters
and the German umlauts). -/
def lowerChar (c : Char) : Char :=
  if 65 ≤ c.toNat && c.toNat ≤ 90 then Char.ofNat (c.toNat + 32)
  else if c = 'Ä' then 'ä'
  else if c = 'Ö' then 'ö'
  else if c = 'Ü' then 'ü'
  else c

/-- Python `str.lower` over a character list. -/
def pyLower (s : List Char) : List Char :=
  s.map lowerChar

/-- Python `str.strip()`: drop leading and trailing whitespace. -/
def pyStrip (s : List Char) : List Char :=
  ((s.dropWhile (fun c => isSpaceC c)).reverse.dropWhile (fun c => isSpaceC c)).reverse

/-! ## Digit strings and zero-padded formatting -/

/-- Value of a digit group, as Python `int` on a digit string. -/
def digitsVal (ds : List Char) : Nat :=
  ds.foldl (fun a c => a * 10 + (c.toNat - 48)) 0

def digitChar (n : Nat) : Char :=
  Char.ofNat (48 + n)

/-- Decimal digits of `n` (most significant first); fuel-driven so the
definition is structurally recursive. -/
def natDigitsAux : Nat → Nat → List Char
  | 0, _ => []
  | fuel + 1, n => if n = 0 then [] else natDigitsAux fuel (n / 10) ++ [digitChar (n % 10)]

def natToChars (n : Nat) : List Char :=
  if n = 0 then ['0'] else natDigitsAux (n + 1) n

def natStr (n : Nat) : String :=
  String.mk (natToChars n)

/-- Python `f"{n:02d}"`. -/
def pad2 (n : Nat) : String :=
  if n < 10 then "0" ++ natStr n else natStr n

/-- Python `f"{n:04d}"`. -/
def pad4 (n : Nat) : String :=
  if n < 10 then "000" ++ natStr n
  else if n < 100 then "00" ++ natStr n
  else if n < 1000 then "0" ++ natStr n
  else natStr n

/-- The `f"{year:04d}-{month:02d}-{day:02d}"` output format of the parsers. -/
def fmtDate (y m d : Nat) : String :=
  pad4 y ++ "-" ++ pad2 m ++ "-" ++ pad2 d

/-! ## Regex building blocks -/

/-- Consume exactly `n` digit characters (`\d{n}` at the head). -/
def takeDigits : Nat → List Char → Option (List Char × List Char)
  | 0, s => some ([], s)
  | _ + 1, [] => none
  | n + 1, c :: s =>
    if isDigitC c then
      match takeDigits n s with
      | some (g, r) => some (c :: g, r)
      | none => none
    else none

/-- Greedy bounded digit group with backtracking into the continuation:
`\d{1,2}` is `tryTake [2,1]`, `\d{2,4}` is `tryTake [4,3,2]`. -/
def tryTake {α : Type} (ns : List Nat) (s : List Char) (k : List Char → List Char → Option α) :
    Option α :=
  match ns with
  | [] => none
  | n :: rest =>
    match takeDigits n s with
    | some (g, r) =>
      match k g r with
      | some v => some v
      | none => tryTake rest s k
    | none => tryTake rest s k

/-- Regex `\s*` (maximal munch; the next token is never a whitespace class). -/
def dropSpaces (s : List Char) : List Char :=
  s.dropWhile (fun c => isSpaceC c)

/-- Regex `\s+` (at least one, then maximal munch). -/
def takeSpaces1 (s : List Char) : Option (List Char) :=
  match s with
  | c :: r => if isSpaceC c then some (r.dropWhile (fun x => isSpaceC x)) else none
  | [] => none

/-- Regex `(\w+)` (at least one, maximal munch; the following token is never
a word class). Returns the group and the rest. -/
def takeWord (s : List Char) : Option (List Char × List Char) :=
  match s with
  | c :: r =>
    if isWordC c then
      some (c :: r.takeWhile (fun x => isWordC x), r.dropWhile (fun x => isWordC x))
    else none
  | [] => none

/-- Regex `\d+` (at least one, maximal munch). -/
def takeDigits1 (s : List Char) : Option (List Char × List Char) :=
  match s with
  | c :: r =>
    if isDigitC c then
      some (c :: r.takeWhile (fun x => isDigitC x), r.dropWhile (fun x => isDigitC x))
    else none
  | [] => none

/-- Consume a literal character sequence. -/
def stripLit : List Char → List Char → Option (List Char)
  | [], s => some s
  | _ :: _, [] => none
  | p :: ps, c :: cs => if p = c then stripLit ps cs else none

/-- First alternative of a literal alternation that consumes (the
alternatives used in the code are pairwise incompatible beyond a shared
prefix whose continuation also fails, see `doors?`). -/
def stripAnyLit (ps : List (List Char)) (s : List Char) : Option (List Char) :=
  match ps with
  | [] => none
  | p :: rest =>
    match stripLit p s with
    | some r => some r
    | none => stripAnyLit rest s

def listStartsWith : List Char → List Char → Bool
  | [], _ => true
  | _ :: _, [] => false
  | p :: ps, c :: cs => p = c && listStartsWith ps cs

/-- Python `pat in hay` substring test. -/
def containsSub (hay pat : List Char) : Bool :=
  match hay with
  | [] => pat.isEmpty
  | _ :: r => listStartsWith pat hay || containsSub r pat

/-- `re.search`: try the pattern at each position, leftmost match wins. -/
def reSearch {α : Type} (m : List Char → Option α) : List Char → Option α
  | [] => m []
  | c :: r =>
    match m (c :: r) with
    | some v => some v
    | none => reSearch m r

/-! ## `BaseVenueScraper.parse_german_date` (base_scraper.py 124-208)

The four patterns of the code, embedded one by one.  The regex searches run on
`date_text.strip()` lowercased (`re.search(pattern, date_text.lower())` after
`date_text = date_text.strip()`). -/

/-- The German month-name table, `months.get(name, 0)` (the code's
`months.get(g[1].lower(), 0)` receives already-lowercased text). -/
def monthsGet (w : List Char) : Nat :=
  let s := String.mk w
  if s = "jänner" || s = "januar" || s = "jan" then 1
  else if s = "februar" || s = "feb" then 2
  else if s = "märz" || s = "mär" || s = "mar" then 3
  else if s = "april" || s = "apr" then 4
  else if s = "mai" || s = "may" then 5
  else if s = "juni" || s = "jun" then 6
  else if s = "juli" || s = "jul" then 7
  else if s = "august" || s = "aug" then 8
  else if s = "september" || s = "sep" || s = "sept" then 9
  else if s = "oktober" || s = "okt" || s = "oct" then 10
  else if s = "november" || s = "nov" then 11
  else if s = "dezember" || s = "dez" || s = "dec" then 12
  else 0

/-- Pattern 1, `(\d{1,2})\.(\d{1,2})\.(\d{2,4})`, anchored at the head;
returns (day group, month group, year group). -/
def matchP1At (s : List Char) : Option (List Char × List Char × List Char) :=
  tryTake [2, 1] s fun d s1 =>
    match s1 with
    | '.' :: s2 =>
      tryTake [2, 1] s2 fun m s3 =>
        match s3 with
        | '.' :: s4 => tryTake [4, 3, 2] s4 fun y _ => some (d, m, y)
        | _ => none
    | _ => none

/-- Pattern 2, `(\d{1,2})/(\d{1,2})(?:/(\d{2,4}))?`, anchored at the head. -/
def matchP2At (s : List Char) : Option (List Char × List Char × Option (List Char)) :=
  tryTake [2, 1] s fun d s1 =>
    match s1 with
    | '/' :: s2 =>
      tryTake [2, 1] s2 fun m s3 =>
        match s3 with
        | '/' :: s4 =>
          match tryTake [4, 3, 2] s4 (fun y r => some (y, r)) with
          | some (y, _) => some (d, m, some y)
          | none => some (d, m, none)
        | _ => some (d, m, none)
    | _ => none

/-- Pattern 3, `(\d{1,2})\.\s*(\w+)\s+(\d{4})`, anchored at the head. -/
def matchP3At (s : List Char) : Option (List Char × List Char × List Char) :=
  tryTake [2, 1] s fun d s1 =>
    match s1 with
    | '.' :: s2 =>
      match takeWord (dropSpaces s2) with
      | some (w, s3) =>
        match takeSpaces1 s3 with
        | some s4 => tryTake [4] s4 fun y _ => some (d, w, y)
        | none => none
      | none => none
    | _ => none

/-- The optional date-range tail of pattern 4:
`\s*-\s*\d{1,2}\.\s*\w+\s+(\d{4})`. -/
def matchRangeTail (s : List Char) : Option (List Char) :=
  match dropSpaces s with
  | '-' :: s1 =>
    tryTake [2, 1] (dropSpaces s1) fun _ s2 =>
      match s2 with
      | '.' :: s3 =>
        match takeWord (dropSpaces s3) with
        | some (_, s4) =>
          match takeSpaces1 s4 with
          | some s5 => tryTake [4] s5 fun y _ => some y
          | none => none
        | none => none
      | _ => none
  | _ => none

/-- Pattern 4, `(\d{1,2})\.\s*(\w+)(?:\s*-\s*\d{1,2}\.\s*\w+\s+(\d{4}))?`,
anchored at the head. -/
def matchP4At (s : List Char) : Option (List Char × List Char × Option (List Char)) :=
  tryTake [2, 1] s fun d s1 =>
    match s1 with
    | '.' :: s2 =>
      match takeWord (dropSpaces s2) with
      | some (w, s3) =>
        match matchRangeTail s3 with
        | some y => some (d, w, some y)
        | none => some (d, w, none)
      | none => none
    | _ => none

/-- Pattern 1's group post-processing:
`int(g[2]) if len(g[2]) == 4 else 2000 + int(g[2])`. -/
def p1Year (y : List Char) : Nat :=
  if y.length = 4 then digitsVal y else 2000 + digitsVal y

/-- The year determination of `parse_german_date` (base_scraper.py 192-201):
when the year group is absent, only `month < current_month` is consulted —
the day of month plays no role. -/
def inferYear (today : Today) (year? : Option Nat) (month : Nat) : Nat :=
  match year? with
  | some y => y
  | none => if month < today.month then today.year + 1 else today.year

/-- The shared loop body after a pattern matched (base_scraper.py 189-204):
year inference, then the range check, then formatting. -/
def processMatch (today : Today) (year? : Option Nat) (month day : Nat) : Option String :=
  if 1 ≤ month && month ≤ 12 && 1 ≤ day && day ≤ 31 && 2020 ≤ inferYear today year? month then
    some (fmtDate (inferYear today year? month) month day)
  else
    none

def attempt1 (today : Today) (t : List Char) : Option String :=
  match reSearch matchP1At t with
  | some (d, m, y) => processMatch today (some (p1Year y)) (digitsVal m) (digitsVal d)
  | none => none

def attempt2 (today : Today) (t : List Char) : Option String :=
  match reSearch matchP2At t with
  | some (d, m, y?) => processMatch today (y?.map digitsVal) (digitsVal m) (digitsVal d)
  | none => none

def attempt3 (today : Today) (t : List Char) : Option String :=
  match reSearch matchP3At t with
  | some (d, w, y) => processMatch today (some (digitsVal y)) (monthsGet w) (digitsVal d)
  | none => none

def attempt4 (today : Today) (t : List Char) : Option String :=
  match reSearch matchP4At t with
  | some (d, w, y?) => processMatch today (y?.map digitsVal) (monthsGet w) (digitsVal d)
  | none => none

/-- `BaseVenueScraper.parse_german_date`.  The patterns are tried in order;
a match whose processed values fail the range check falls through to the next
pattern (the code's `for pattern, parser in patterns` loop); `None` on empty
input and when every pattern fails.  The function is total: the code's
`except: continue` can never fire on these patterns (`int` is applied to
digit groups only and `months.get` has a default). -/
def parse_german_date (today : Today) (dateText : String) : Option String :=
  if dateText.toList.isEmpty then none
  else
    match attempt1 today (pyLower (pyStrip dateText.toList)) with
    | some r => some r
    | none =>
      match attempt2 today (pyLower (pyStrip dateText.toList)) with
      | some r => some r
      | none =>
        match attempt3 today (pyLower (pyStrip dateText.toList)) with
        | some r => some r
        | none => attempt4 today (pyLower (pyStrip dateText.toList))

/-! ## `BaseVenueScraper.parse_time` (base_scraper.py 210-235) -/

/-- The prefix alternation `(?:doors?|einlass|start|beginn)` (with `doors`
tried before `door`, as the greedy `s?`). -/
def timePrefixes : List (List Char) :=
  ["doors".toList, "door".toList, "einlass".toList, "start".toList, "beginn".toList]

/-- Regex `[:\s]+` (maximal munch; a digit follows in the pattern). -/
def takeColonSpaces1 (s : List Char) : Option (List Char) :=
  match s with
  | c :: r =>
    if c = ':' || isSpaceC c then some (r.dropWhile (fun x => x = ':' || isSpaceC x))
    else none
  | [] => none

/-- The head of `(\d{1,2}):(\d{2})`, common to both time patterns. -/
def matchClockAt (s : List Char) : Option (Nat × Nat) :=
  tryTake [2, 1] s fun h s1 =>
    match s1 with
    | ':' :: s2 =>
      match takeDigits 2 s2 with
      | some (m, _) => some (digitsVal h, digitsVal m)
      | none => none
    | _ => none

/-- Time pattern 1, `(?:doors?|einlass|start|beginn)[:\s]+(\d{1,2}):(\d{2})`,
anchored at the head. -/
def matchTimePrefAt (s : List Char) : Option (Nat × Nat) :=
  match stripAnyLit timePrefixes s with
  | some s1 =>
    match takeColonSpaces1 s1 with
    | some s2 => matchClockAt s2
    | none => none
  | none => none

/-- Time pattern 2, `(\d{1,2}):(\d{2})\s*(?:uhr)?`, anchored at the head
(the trailing optional tokens are uncaptured and always succeed). -/
def matchTimeBareAt (s : List Char) : Option (Nat × Nat) :=
  matchClockAt s

/-- Range check and formatting inside the loop body:
`if 0 <= hour <= 23 and 0 <= minute <= 59: return f"{hour:02d}:{minute:02d}"`. -/
def timeCheck (hm : Nat × Nat) : Option String :=
  if hm.1 ≤ 23 && hm.2 ≤ 59 then some (pad2 hm.1 ++ ":" ++ pad2 hm.2) else none

/-- One iteration of the pattern loop of `parse_time`: a match that fails the
range check yields nothing from this pattern. -/
def tryTimePattern (m : List Char → Option (Nat × Nat)) (t : List Char) : Option String :=
  match reSearch m t with
  | some hm => timeCheck hm
  | none => none

/-- `BaseVenueScraper.parse_time`. -/
def parse_time (text : String) : Option String :=
  if text.toList.isEmpty then none
  else
    match tryTimePattern matchTimePrefAt (pyLower text.toList) with
    | some r => some r
    | none => tryTimePattern matchTimeBareAt (pyLower text.toList)

/-! ## `BaseVenueScraper.extract_price` (base_scraper.py 237-262) -/

def freeKeywords : List String :=
  ["free", "gratis", "eintritt frei", "freier eintritt"]

/-- The free-entry test `any(kw in text.lower() for kw in [...])`. -/
def hasFreeKeyword (text : String) : Bool :=
  freeKeywords.any (fun kw => containsSub (pyLower text.toList) kw.toList)

def currencyLits : List (List Char) :=
  ["€".toList, "EUR".toList, "Euro".toList]

/-- The amount group `(\d+(?:[.,]\d{2})?)` when the decimal part is present:
maximal digits, then `[.,]` and exactly two digits.  Returns group and rest. -/
def numGroupWith (s : List Char) : Option (List Char × List Char) :=
  match takeDigits1 s with
  | some (ds, r) =>
    match r with
    | c :: d1 :: d2 :: rest =>
      if (c = '.' || c = ',') && isDigitC d1 && isDigitC d2 then
        some (ds ++ [c, d1, d2], rest)
      else none
    | _ => none
  | none => none

/-- The amount group at the end of a pattern (nothing follows, so greedy
decimal inclusion never backtracks): `(\d+(?:[.,]\d{2})?)`, group only. -/
def numGroupFinal (s : List Char) : Option (List Char) :=
  match numGroupWith s with
  | some (g, _) => some g
  | none =>
    match takeDigits1 s with
    | some (ds, _) => some ds
    | none => none

/-- Price pattern 1, `(?:€|EUR|Euro)\s*(\d+(?:[.,]\d{2})?)`, anchored. -/
def matchPrice1At (s : List Char) : Option (List Char) :=
  match stripAnyLit currencyLits s with
  | some s1 => numGroupFinal (dropSpaces s1)
  | none => none

/-- Tail `\s*(?:€|EUR|Euro)` of price pattern 2. -/
def currencyAfter (s : List Char) : Bool :=
  currencyLits.any (fun p => listStartsWith p (dropSpaces s))

/-- Price pattern 2, `(\d+(?:[.,]\d{2})?)\s*(?:€|EUR|Euro)`, anchored.  The
greedy optional decimal backtracks when the currency does not follow it. -/
def matchPrice2At (s : List Char) : Option (List Char) :=
  match takeDigits1 s with
  | some (ds, r) =>
    let withDec : Option (List Char) :=
      match numGroupWith s with
      | some (g, rest) => if currencyAfter rest then some g else none
      | none => none
    match withDec with
    | some g => some g
    | none => if currencyAfter r then some ds else none
  | none => none

/-- Price pattern 3, `(?:ab|from)\s+(?:€|EUR)?\s*(\d+(?:[.,]\d{2})?)`,
anchored; the optional currency backtracks to absent when no amount
follows it. -/
def matchPrice3At (s : List Char) : Option (List Char) :=
  match stripAnyLit ["ab".toList, "from".toList] s with
  | some s1 =>
    match takeSpaces1 s1 with
    | some s2 =>
      let withCur : Option (List Char) :=
        match stripAnyLit ["€".toList, "EUR".toList] s2 with
        | some s3 => numGroupFinal (dropSpaces s3)
        | none => none
      match withCur with
      | some g => some g
      | none => numGroupFinal (dropSpaces s2)
    | none => none
  | none => none

/-- The `price = match.group(1).replace(',', '.')` normalization. -/
def commaToDot (g : List Char) : List Char :=
  g.map (fun c => if c = ',' then '.' else c)

/-- `BaseVenueScraper.extract_price`.  Free-entry keywords are checked first
(on the lowercased text); the three amount patterns then run on the original
text. -/
def extract_price (text : String) : Option String :=
  if text.toList.isEmpty then none
  else if hasFreeKeyword text then some "Free / Gratis"
  else
    match reSearch matchPrice1At text.toList with
    | some g => some ("ab €" ++ String.mk (commaToDot g))
    | none =>
      match reSearch matchPrice2At text.toList with
      | some g => some ("ab €" ++ String.mk (commaToDot g))
      | none =>
        match reSearch matchPrice3At text.toList with
        | some g => some ("ab €" ++ String.mk (commaToDot g))
        | none => none

/-! ## `GenericVenueScraper._extract_date_from_title` (generic_scraper.py 160-188) -/

/-- The pattern `(\d{1,2})[./](\d{1,2})` of `_extract_date_from_title`,
anchored at the head; returns (day group, month group). -/
def matchTitleDateAt (s : List Char) : Option (List Char × List Char) :=
  tryTake [2, 1] s fun d s1 =>
    match s1 with
    | c :: s2 =>
      if c = '.' || c = '/' then tryTake [2, 1] s2 (fun m _ => some (d, m))
      else none
    | [] => none

/-- `GenericVenueScraper._extract_date_from_title`: date from a title in
`DD/MM` or `DD.MM` form.  Unlike `parse_german_date`, the year inference
compares the day as well; there is no range validation. -/
def extract_date_from_title (today : Today) (title : String) : Option String :=
  if title.toList.isEmpty then none
  else
    match reSearch matchTitleDateAt title.toList with
    | some (d, m) =>
      let day := digitsVal d
      let month := digitsVal m
      let year :=
        if month < today.month || (month = today.month && day < today.day) then today.year + 1
        else today.year
      some (fmtDate year month day)
    | none => none

/-! ## `BaseVenueScraper.is_future_event` (base_scraper.py 264-273) -/

def isLeap (y : Nat) : Bool :=
  (y % 4 = 0 && y % 100 ≠ 0) || y % 400 = 0

def daysInMonth (y m : Nat) : Nat :=
  if m = 2 then (if isLeap y then 29 else 28)
  else if m = 4 || m = 6 || m = 9 || m = 11 then 30
  else 31

/-- `datetime.strptime(s, "%Y-%m-%d").date()`: four year digits, `-`,
one or two month digits, `-`, one or two day digits, whole string consumed,
and a valid proleptic-Gregorian calendar date (else `ValueError`). -/
def parseIsoDate (s : String) : Option (Nat × Nat × Nat) :=
  match takeDigits 4 s.toList with
  | some (ys, r1) =>
    match r1 with
    | '-' :: r2 =>
      tryTake [2, 1] r2 fun ms r3 =>
        match r3 with
        | '-' :: r4 =>
          tryTake [2, 1] r4 fun ds r5 =>
            if r5.isEmpty then
              let y := digitsVal ys
              let m := digitsVal ms
              let d := digitsVal ds
              if 1 ≤ y && 1 ≤ m && m ≤ 12 && 1 ≤ d && d ≤ daysInMonth y m then
                some (y, m, d)
              else none
            else none
        | _ => none
    | _ => none
  | none => none

/-- Lexicographic date comparison, `event_date >= datetime.now().date()`. -/
def dateLe (a b : Nat × Nat × Nat) : Bool :=
  a.1 < b.1 || (a.1 = b.1 && (a.2.1 < b.2.1 || (a.2.1 = b.2.1 && a.2.2 ≤ b.2.2)))

/-- `BaseVenueScraper.is_future_event`: `True` for a missing, empty or
unparseable date (the `except: return True`), else `event_date >= today`. -/
def is_future_event (today : Today) (date? : Option String) : Bool :=
  match date? with
  | none => true
  | some s =>
    if s.toList.isEmpty then true
    else
      match parseIsoDate s with
      | some d => dateLe (today.year, today.month, today.day) d
      | none => true

/-! ## Scraped event dictionaries

A scraped event is a Python dict.  Keys read via `event.get(k)` (no default)
are `Option`-valued — a key that is absent and a key holding `None` are
indistinguishable there.  Keys read via `event.get(k, default)` distinguish
the two: they are `Option (Option _)`-valued, `none` meaning the key is
absent (the default applies) and `some none` meaning the key is present and
holds `None` (the default does NOT apply).  Every scraper in the repository
initialises its event dicts with `'time': None`, `'price': None`, etc., so
the `some none` shape is the common one for an unknown field. -/

structure PyEvent where
  title : Option String
  date : Option String
  time : Option (Option String)
  price : Option (Option String)
  description : Option String
  detail_url : Option String
  website : Option String
  ticket_url : Option String
  image_url : Option String
  end_datetime : Option String
  artists : Option (List String)
  deriving Repr, DecidableEq

/-- An all-`None` event dict as the scrapers initialise it
(`_parse_event_item` / `_parse_event_link`). -/
def emptyEvent : PyEvent :=
  ⟨none, none, some none, some none, none, none, none, none, none, none, some []⟩

/-- Python truthiness of an optional string: `None` and `""` are falsy. -/
def strTruthy : Option String → Bool
  | none => false
  | some s => !s.toList.isEmpty

/-- Python `a or b` on optional strings. -/
def pyOr (a b : Option String) : Option String :=
  if strTruthy a then a else b

/-- Python `str(x)` as interpolated by an f-string: `None` prints `"None"`. -/
def pyStrOfOpt : Option String → String
  | none => "None"
  | some s => s

/-- Python `x or default` for strings (falsy `x` yields the default). -/
def orDefault (a : Option String) (d : String) : String :=
  match a with
  | some s => if s.toList.isEmpty then d else s
  | none => d

/-! ## Venue configuration (the class-level constants of a scraper) -/

structure VenueCfg where
  venueName : String
  venueAddress : String
  city : String
  country : String
  category : String
  subcategory : String
  logoUrl : Option String
  deriving Repr, DecidableEq

/-- `self.VENUE_NAME.lower().replace(' ', '-')`. -/
def slugVenue (cfg : VenueCfg) : String :=
  String.mk ((pyLower cfg.venueName.toList).map (fun c => if c = ' ' then '-' else c))

/-! ## `BaseVenueScraper._prepare_event_for_pipeline` (base_scraper.py 381-422) -/

structure PipeRecord where
  title : Option String
  description : Option String
  start_date_time : String
  end_date_time : Option String
  venue_name : String
  venue_address : String
  venue_city : String
  category : String
  price : Option String
  ticket_url : Option String
  website_url : Option String
  image_url : Option String
  source : String
  source_url : Option String
  deriving Repr, DecidableEq

/-- `BaseVenueScraper._prepare_event_for_pipeline`: `None` without a truthy
title or a truthy date; otherwise the RawEventInput payload, whose
`start_date_time` is `f"{event['date']}T{time_str}:00.000Z"` with
`time_str = event.get('time', '23:00')` — so the `'23:00'` default applies
only when the `'time'` key is absent, and a present `None` is interpolated
as the literal `"None"`. -/
def prepare_event_for_pipeline (cfg : VenueCfg) (e : PyEvent) : Option PipeRecord :=
  if !strTruthy e.title then none
  else
    match e.date with
    | some d =>
      if d.toList.isEmpty then none
      else
        let timeStr : Option String :=
          match e.time with
          | none => some "23:00"
          | some v => v
        let startDt := d ++ "T" ++ pyStrOfOpt timeStr ++ ":00.000Z"
        let img := if !strTruthy e.image_url && strTruthy cfg.logoUrl then cfg.logoUrl
                   else e.image_url
        some { title := e.title
               description := e.description
               start_date_time := startDt
               end_date_time := e.end_datetime
               venue_name := cfg.venueName
               venue_address := cfg.venueAddress
               venue_city := cfg.city
               category := cfg.category
               price := (match e.price with
                         | none => some "See event page"
                         | some v => v)
               ticket_url := e.ticket_url
               website_url := pyOr e.detail_url e.website
               image_url := img
               source := "scraper"
               source_url := pyOr e.detail_url e.website }
    | none => none

/-! ## `BaseVenueScraper._generate_slug` (base_scraper.py 499-514) -/

/-- `re.sub(r'[-\s]+', '-', s)`: each maximal run of `-`/whitespace becomes
one `-` (state = currently inside such a run). -/
def collapseRunsGo : Bool → List Char → List Char
  | _, [] => []
  | inRun, c :: r =>
    if isSpaceC c || c = '-' then
      if inRun then collapseRunsGo true r else '-' :: collapseRunsGo true r
    else c :: collapseRunsGo false r

/-- Python `s.strip('-')`. -/
def stripDashes (s : List Char) : List Char :=
  ((s.dropWhile (fun c => c = '-')).reverse.dropWhile (fun c => c = '-')).reverse

/-- `BaseVenueScraper._generate_slug`. -/
def generate_slug (cfg : VenueCfg) (title? date? : Option String) : String :=
  if !strTruthy title? then slugVenue cfg ++ "-" ++ orDefault date? "event"
  else
    let t := pyLower (pyStrOfOpt title?).toList
    let s1 := t.filter (fun c => isWordC c || isSpaceC c || c = '-')
    let s2 := stripDashes (collapseRunsGo false s1)
    let s3 := if strTruthy date? then s2 ++ ('-' :: (pyStrOfOpt date?).toList) else s2
    let s4 := (slugVenue cfg).toList ++ ('-' :: s3)
    String.mk (s4.take 200)

/-! ## `BaseVenueScraper._prepare_event_for_db` (base_scraper.py 460-497) -/

structure DbEvent where
  title : Option String
  description : Option String
  category : String
  subcategory : String
  city : String
  country : String
  start_date_time : Option String
  end_date_time : Option String
  custom_venue_name : String
  custom_venue_address : String
  price_info : Option String
  is_free : Bool
  website_url : Option String
  booking_url : Option String
  image_urls : Option (List String)
  tags : Option (List String)
  source : String
  source_url : Option String
  slug : String
  published_at : String
  deriving Repr, DecidableEq

/-- `BaseVenueScraper._prepare_event_for_db` (`now` stands for
`datetime.now().isoformat()`).  Returns `none` exactly when the Python code
raises: with the `'price'` key present and holding `None`,
`event.get('price', '').lower()` is `None.lower()` — an `AttributeError`
caught by the caller's per-event handler. -/
def prepare_event_for_db (cfg : VenueCfg) (now : String) (e : PyEvent) : Option DbEvent :=
  match e.price with
  | some none => none
  | _ =>
    let startDt : Option String :=
      match e.date with
      | some d =>
        if d.toList.isEmpty then none
        else some (d ++ "T" ++
          pyStrOfOpt (match e.time with | none => some "23:00" | some v => v) ++ ":00.000Z")
      | none => none
    let img := if !strTruthy e.image_url && strTruthy cfg.logoUrl then cfg.logoUrl
               else e.image_url
    some { title := e.title
           description := e.description
           category := cfg.category
           subcategory := cfg.subcategory
           city := cfg.city
           country := cfg.country
           start_date_time := startDt
           end_date_time := e.end_datetime
           custom_venue_name := cfg.venueName
           custom_venue_address := cfg.venueAddress
           price_info := (match e.price with
                          | none => some "See event page"
                          | some v => v)
           is_free := (match e.price with
                       | some (some p) =>
                         decide (String.mk (pyLower p.toList) = "free") ||
                           decide (String.mk (pyLower p.toList) = "gratis") ||
                           decide (String.mk (pyLower p.toList) = "free / gratis")
                       | _ => false)
           website_url := pyOr e.detail_url e.website
           booking_url := e.ticket_url
           image_urls := (if strTruthy img then some [pyStrOfOpt img] else none)
           tags := (match e.artists with
                    | some (a :: as) => some ((a :: as).take 10)
                    | _ => none)
           source := slugVenue cfg ++ "-scraper"
           source_url := pyOr e.detail_url e.website
           slug := generate_slug cfg e.title e.date
           published_at := now }

/-! ## `BaseVenueScraper.save_to_database` (base_scraper.py 424-458)

The events table is a list of rows in insertion order; `insert` appends a
row under a fresh id, `update(...).eq('id', i)` rewrites every row with id
`i`.  The `select ... eq('source_url', u)` lookup yields the first row whose
`source_url` equals `u` — there is no `(title, start_date_time)` fallback
lookup in the code. -/

structure DbRow where
  id : Nat
  ev : DbEvent
  deriving Repr, DecidableEq

structure SaveStats where
  inserted : Nat
  updated : Nat
  errors : Nat
  deriving Repr, DecidableEq

def findBySourceUrl (db : List DbRow) (u : String) : Option DbRow :=
  db.find? (fun r => r.ev.source_url = some u)

/-- One iteration of the `for event in events` loop of `save_to_database`.
State is (rows, next fresh id, stats).  The success log line subscripts
`event['title'][:50]`; when the title is `None` this raises after the write
already happened, so the error counter increments on top of the
inserted/updated counter. -/
def save_one (cfg : VenueCfg) (now : String) (st : List DbRow × Nat × SaveStats)
    (e : PyEvent) : List DbRow × Nat × SaveStats :=
  let db := st.1
  let fresh := st.2.1
  let stats := st.2.2
  match prepare_event_for_db cfg now e with
  | none => (db, fresh, { stats with errors := stats.errors + 1 })
  | some row =>
    let logPenalty : Nat := if e.title = none then 1 else 0
    if strTruthy row.source_url then
      match findBySourceUrl db (pyStrOfOpt row.source_url) with
      | some ex =>
        (db.map (fun r => if r.id = ex.id then { r with ev := row } else r), fresh,
          { stats with updated := stats.updated + 1, errors := stats.errors + logPenalty })
      | none =>
        (db ++ [⟨fresh, row⟩], fresh + 1,
          { stats with inserted := stats.inserted + 1, errors := stats.errors + logPenalty })
    else
      (db ++ [⟨fresh, row⟩], fresh + 1,
        { stats with inserted := stats.inserted + 1, errors := stats.errors + logPenalty })

/-- `BaseVenueScraper.save_to_database` over an initial table state. -/
def save_to_database (cfg : VenueCfg) (now : String) (db : List DbRow) (fresh : Nat)
    (events : List PyEvent) : List DbRow × Nat × SaveStats :=
  events.foldl (save_one cfg now) (db, fresh, ⟨0, 0, 0⟩)

/-! ## `FluccWanneScraper.scrape_events` (flucc-wanne.py 43-63) -/

def fluccPages : List String :=
  ["https://flucc.at/musik/", "https://flucc.at/kunst/", "https://flucc.at/community/"]

/-- `_scrape_page`: a failed fetch (`fetch_page` returned `None`, which is
what its catch-all exception handler produces on any network error) yields
`[]` for that page only. -/
def scrapePage {Soup : Type} (fetch : String → Option Soup)
    (extract : Soup → List PyEvent) (url : String) : List PyEvent :=
  match fetch url with
  | none => []
  | some s => extract s

/-- The deduplication loop of `scrape_events`:
`url = event.get('detail_url', '')` (both an absent key and a present `None`
are falsy, like `''`); an event with a truthy url is kept iff the url was
not seen before; an event without a truthy url is always kept. -/
def dedupGo (seen : List String) : List PyEvent → List PyEvent
  | [] => []
  | e :: rest =>
    let url := (match e.detail_url with | some s => s | none => "")
    if url ≠ "" && !seen.contains url then e :: dedupGo (url :: seen) rest
    else if url = "" then e :: dedupGo seen rest
    else dedupGo seen rest

def dedupByUrl (events : List PyEvent) : List PyEvent :=
  dedupGo [] events

/-- `FluccWanneScraper.scrape_events`: every page is scraped independently
(`all_events.extend`), then the result is deduplicated by detail URL. -/
def flucc_scrape_events {Soup : Type} (fetch : String → Option Soup)
    (extract : Soup → List PyEvent) : List PyEvent :=
  dedupByUrl ((fluccPages.map (scrapePage fetch extract)).flatten)

/-! ## `link_events_to_venue.py` -/

/-- `' '.join(...)` over the split words. -/
def joinSpace : List (List Char) → List Char
  | [] => []
  | [w] => w
  | w :: ws => w ++ ' ' :: joinSpace ws

/-- Python `str.split()` (no separator): split on whitespace runs, no empty
words.  The accumulator holds the current word reversed. -/
def pySplitWsGo (acc : List Char) : List Char → List (List Char)
  | [] => if acc.isEmpty then [] else [acc.reverse]
  | c :: r =>
    if isSpaceC c then
      if acc.isEmpty then pySplitWsGo [] r else acc.reverse :: pySplitWsGo [] r
    else pySplitWsGo (c :: acc) r

def pySplitWs (s : List Char) : List (List Char) :=
  pySplitWsGo [] s

/-- `normalize_venue_name` (link_events_to_venue.py 29-34):
`' '.join(name.lower().strip().split())`, and `""` for a falsy name. -/
def normalize_venue_name (name : String) : String :=
  if name.toList.isEmpty then ""
  else String.mk (joinSpace (pySplitWs (pyStrip (pyLower name.toList))))

/-- The specification's venue normalization, written from its words:
`normalize(name) = trim(collapseWhitespace(lowercase(name)))`, where
`collapseWhitespace` replaces each maximal whitespace run by one space. -/
def collapseWsGo : Bool → List Char → List Char
  | _, [] => []
  | inRun, c :: r =>
    if isSpaceC c then
      if inRun then collapseWsGo true r else ' ' :: collapseWsGo true r
    else c :: collapseWsGo false r

def normalizeSpec (name : String) : String :=
  String.mk (pyStrip (collapseWsGo false (pyLower name.toList)))

def lowerStr (s : String) : String :=
  String.mk (pyLower s.toList)

structure Venue where
  id : String
  name : String
  city : String
  deriving Repr, DecidableEq

/-- A row of the events table as selected by `get_unlinked_events`
(`id, custom_venue_name, city`) plus its `venue_id`.  The `city` column is
non-null for every row these scrapers write (`CITY = "Wien"`). -/
structure EventRow where
  id : String
  custom_venue_name : Option String
  city : String
  venue_id : Option String
  deriving Repr, DecidableEq

/-- `get_venues`: the lookup dict keyed by
`(normalize_venue_name(name), city.lower())`; a later venue overwrites an
earlier one with the same key (dict assignment). -/
def venueKey (v : Venue) : String × String :=
  (normalize_venue_name v.name, lowerStr v.city)

def lookupVenue (venues : List Venue) (key : String × String) : Option Venue :=
  venues.foldl (fun acc v => if venueKey v = key then some v else acc) none

structure LinkStats where
  linked : Nat
  errors : Nat
  not_found : Nat
  deriving Repr, DecidableEq

/-- `get_unlinked_events`: rows with `venue_id` NULL and a non-null
`custom_venue_name`. -/
def unlinkedOf (events : List EventRow) : List EventRow :=
  events.filter (fun e => e.venue_id.isNone && e.custom_venue_name.isSome)

/-- One iteration of the `for event in unlinked_events` loop: an empty name
is skipped without counting; a lookup hit updates `venue_id` (all rows with
that id) and counts `linked` (the write is suppressed under `dry_run` but
still counted); a miss counts `not_found` and writes nothing. -/
def linkStep (venues : List Venue) (dryRun : Bool) (st : List EventRow × LinkStats)
    (u : EventRow) : List EventRow × LinkStats :=
  let evs := st.1
  let stats := st.2
  let name := (match u.custom_venue_name with | some n => n | none => "")
  if name.toList.isEmpty then (evs, stats)
  else
    match lookupVenue venues (normalize_venue_name name, lowerStr u.city) with
    | some v =>
      if dryRun then (evs, { stats with linked := stats.linked + 1 })
      else
        (evs.map (fun e => if e.id = u.id then { e with venue_id := some v.id } else e),
          { stats with linked := stats.linked + 1 })
    | none => (evs, { stats with not_found := stats.not_found + 1 })

/-- `link_events_to_venues` (link_events_to_venue.py 87-161): early return
with zero stats when the venue lookup is empty, else the loop over the
snapshot of unlinked events. -/
def link_events_to_venues (venues : List Venue) (events : List EventRow)
    (dryRun : Bool) : List EventRow × LinkStats :=
  if venues.isEmpty then (events, ⟨0, 0, 0⟩)
  else (unlinkedOf events).foldl (linkStep venues dryRun) (events, ⟨0, 0, 0⟩)

/-! ## Range validation of `parse_german_date` -/

theorem processMatch_eq_some {today : Today} {year? : Option Nat} {month day : Nat}
    {s : String} (h : processMatch today year? month day = some s) :
    ∃ y, 1 ≤ month ∧ month ≤ 12 ∧ 1 ≤ day ∧ day ≤ 31 ∧ 2020 ≤ y ∧ s = fmtDate y month day := by
  unfold processMatch at h
  split at h
  · rename_i hcond
    simp only [Bool.and_eq_true, decide_eq_true_eq] at hcond
    cases h
    exact ⟨inferYear today year? month, hcond.1.1.1.1, hcond.1.1.1.2, hcond.1.1.2,
      hcond.1.2, hcond.2, rfl⟩
  · cases h

theorem attempt1_eq_some {today : Today} {t : List Char} {s : String}
    (h : attempt1 today t = some s) :
    ∃ y m d, 1 ≤ m ∧ m ≤ 12 ∧ 1 ≤ d ∧ d ≤ 31 ∧ 2020 ≤ y ∧ s = fmtDate y m d := by
  unfold attempt1 at h
  cases hm : reSearch matchP1At t with
  | none => rw [hm] at h; cases h
  | some g =>
    obtain ⟨d, m, y⟩ := g
    rw [hm] at h
    obtain ⟨yy, h1, h2, h3, h4, h5, h6⟩ := processMatch_eq_some h
    exact ⟨yy, _, _, h1, h2, h3, h4, h5, h6⟩

theorem attempt2_eq_some {today : Today} {t : List Char} {s : String}
    (h : attempt2 today t = some s) :
    ∃ y m d, 1 ≤ m ∧ m ≤ 12 ∧ 1 ≤ d ∧ d ≤ 31 ∧ 2020 ≤ y ∧ s = fmtDate y m d := by
  unfold attempt2 at h
  cases hm : reSearch matchP2At t with
  | none => rw [hm] at h; cases h
  | some g =>
    obtain ⟨d, m, y⟩ := g
    rw [hm] at h
    obtain ⟨yy, h1, h2, h3, h4, h5, h6⟩ := processMatch_eq_some h
    exact ⟨yy, _, _, h1, h2, h3, h4, h5, h6⟩

theorem attempt3_eq_some {today : Today} {t : List Char} {s : String}
    (h : attempt3 today t = some s) :
    ∃ y m d, 1 ≤ m ∧ m ≤ 12 ∧ 1 ≤ d ∧ d ≤ 31 ∧ 2020 ≤ y ∧ s = fmtDate y m d := by
  unfold attempt3 at h
  cases hm : reSearch matchP3At t with
  | none => rw [hm] at h; cases h
  | some g =>
    obtain ⟨d, m, y⟩ := g
    rw [hm] at h
    obtain ⟨yy, h1, h2, h3, h4, h5, h6⟩ := processMatch_eq_some h
    exact ⟨yy, _, _, h1, h2, h3, h4, h5, h6⟩

theorem attempt4_eq_some {today : Today} {t : List Char} {s : String}
    (h : attempt4 today t = some s) :
    ∃ y m d, 1 ≤ m ∧ m ≤ 12 ∧ 1 ≤ d ∧ d ≤ 31 ∧ 2020 ≤ y ∧ s = fmtDate y m d := by
  unfold attempt4 at h
  cases hm : reSearch matchP4At t with
  | none => rw [hm] at h; cases h
  | some g =>
    obtain ⟨d, m, y⟩ := g
    rw [hm] at h
    obtain ⟨yy, h1, h2, h3, h4, h5, h6⟩ := processMatch_eq_some h
    exact ⟨yy, _, _, h1, h2, h3, h4, h5, h6⟩

theorem parse_german_date_eq_some {today : Today} {text : String} {s : String}
    (h : parse_german_date today text = some s) :
    ∃ y m d, 1 ≤ m ∧ m ≤ 12 ∧ 1 ≤ d ∧ d ≤ 31 ∧ 2020 ≤ y ∧ s = fmtDate y m d := by
  unfold parse_german_date at h
  split at h
  · cases h
  · cases h1 : attempt1 today (pyLower (pyStrip text.toList)) with
    | some r => rw [h1] at h; cases h; exact attempt1_eq_some h1
    | none =>
      rw [h1] at h
      cases h2 : attempt2 today (pyLower (pyStrip text.toList)) with
      | some r => rw [h2] at h; cases h; exact attempt2_eq_some h2
      | none =>
        rw [h2] at h
        cases h3 : attempt3 today (pyLower (pyStrip text.toList)) with
        | some r => rw [h3] at h; cases h; exact attempt3_eq_some h3
        | none =>
          rw [h3] at h
          exact attempt4_eq_some h

/-- C4: for every input text, `parse_german_date` rejects (returns `null`,
and, being a total function, never raises) any extraction whose month lies
outside `[1,12]`, whose day lies outside `[1,31]` or whose resulting year is
below the floor 2020 — every returned value is a formatted date satisfying
all three range conditions — and in particular inputs carrying month 13,
day 32 or a year below the floor yield `null`. -/
theorem claim_C4 :
    (∀ (today : Today) (text : String) (s : String),
        parse_german_date today text = some s →
        ∃ y m d, 1 ≤ m ∧ m ≤ 12 ∧ 1 ≤ d ∧ d ≤ 31 ∧ 2020 ≤ y ∧ s = fmtDate y m d) ∧
    parse_german_date ⟨2025, 6, 15⟩ "26.13.2025" = none ∧
    parse_german_date ⟨2025, 6, 15⟩ "32.01.2025" = none ∧
    parse_german_date ⟨2025, 6, 15⟩ "01.01.2019" = none :=
  ⟨fun _ _ _ h => parse_german_date_eq_some h, by decide, by decide, by decide⟩

theorem claim_C4_witness :
    ∃ y m d, 1 ≤ m ∧ m ≤ 12 ∧ 1 ≤ d ∧ d ≤ 31 ∧ 2020 ≤ y ∧ "2025-11-26" = fmtDate y m d :=
  claim_C4.1 ⟨2025, 6, 15⟩ "26.11.2025" "2025-11-26" (by decide)

/-! ## Year inference (claim C1) -/

/-- C1 (counterexample): with today = 2025-06-15, the claimed rule
(`month == currentMonth and day < currentDay` implies next year, so that an
inferred date is never in the past) demands `parse_german_date` resolve
`"10. Juni"` to `"2026-06-10"`; the code returns `"2025-06-10"`, a date
strictly before today — the scraper's own `is_future_event` filter
classifies it as past. -/
theorem claim_C1_counterexample :
    parse_german_date ⟨2025, 6, 15⟩ "10. Juni" = some "2025-06-10" ∧
    parse_german_date ⟨2025, 6, 15⟩ "10. Juni" ≠ some "2026-06-10" ∧
    is_future_event ⟨2025, 6, 15⟩ (some "2025-06-10") = false :=
  ⟨by decide, by decide, by decide⟩

/-- C1 (amended): when the year is absent, `parse_german_date` infers it
solely from `month < currentMonth` (next year on a passed month, otherwise
the current year — the day of month is never compared, so a current-month
day earlier than today resolves to a past date, as the `"10. Juni"` instance
shows); the full rule of the claim, including the
`month == currentMonth and day < currentDay` disjunct, is implemented only
by `_extract_date_from_title` of the generic scraper. -/
theorem claim_C1 :
    (∀ (today : Today) (m d : Nat), 1 ≤ m → m ≤ 12 → 1 ≤ d → d ≤ 31 →
        2020 ≤ today.year →
        processMatch today none m d =
          some (fmtDate (if m < today.month then today.year + 1 else today.year) m d)) ∧
    parse_german_date ⟨2025, 6, 15⟩ "10. Juni" = some "2025-06-10" ∧
    parse_german_date ⟨2025, 12, 1⟩ "26. November" = some "2026-11-26" ∧
    (∀ (today : Today) (title : String) (dg mg : List Char),
        title.toList.isEmpty = false →
        reSearch matchTitleDateAt title.toList = some (dg, mg) →
        extract_date_from_title today title =
          some (fmtDate
            (if digitsVal mg < today.month ∨
                (digitsVal mg = today.month ∧ digitsVal dg < today.day)
             then today.year + 1 else today.year)
            (digitsVal mg) (digitsVal dg))) ∧
    extract_date_from_title ⟨2025, 6, 15⟩ "Party 10.6" = some "2026-06-10" := by
  refine ⟨?_, by decide, by decide, ?_, by decide⟩
  · intro today m d h1 h2 h3 h4 h5
    unfold processMatch inferYear
    have hc : (1 ≤ m && m ≤ 12 && 1 ≤ d && d ≤ 31 &&
        2020 ≤ (if m < today.month then today.year + 1 else today.year) : Bool) = true := by
      simp only [Bool.and_eq_true, decide_eq_true_eq]
      exact ⟨⟨⟨⟨h1, h2⟩, h3⟩, h4⟩, by split <;> omega⟩
    rw [if_pos hc]
  · intro today title dg mg hne hsearch
    unfold extract_date_from_title
    rw [hne]
    simp only [Bool.false_eq_true, if_false, hsearch]
    congr 1
    congr 1
    by_cases hlt : digitsVal mg < today.month
    · rw [if_pos, if_pos (Or.inl hlt)]
      simp [hlt]
    · by_cases heq : digitsVal mg = today.month
      · by_cases hd : digitsVal dg < today.day
        · rw [if_pos, if_pos (Or.inr ⟨heq, hd⟩)]
          simp [heq, hd]
        · rw [if_neg, if_neg]
          · rintro (h | ⟨-, h⟩) <;> omega
          · simp [hlt, heq, hd]
      · rw [if_neg, if_neg]
        · rintro (h | ⟨h, -⟩) <;> omega
        · simp [hlt, heq]

theorem claim_C1_witness :
    processMatch ⟨2025, 6, 15⟩ none 6 10 = some (fmtDate 2025 6 10) := by
  have h := claim_C1.1 ⟨2025, 6, 15⟩ 6 10 (by decide) (by decide) (by decide)
    (by decide) (by decide)
  simpa using h

/-! ## Price extraction (claim C9) -/

theorem extract_price_free {text : String} (h : hasFreeKeyword text = true) :
    extract_price text = some "Free / Gratis" := by
  have hne : text.toList.isEmpty = false := by
    cases he : text.toList.isEmpty
    · rfl
    · exfalso
      have hnil : text.toList = [] := by
        cases hl : text.toList
        · rfl
        · rw [hl] at he; cases he
      unfold hasFreeKeyword at h
      rw [hnil] at h
      exact absurd h (by decide)
  unfold extract_price
  rw [hne, h]
  simp

theorem extract_price_shape {text : String} {r : String}
    (h : extract_price text = some r) (hf : hasFreeKeyword text = false) :
    ∃ amt, r = "ab €" ++ amt := by
  unfold extract_price at h
  split at h
  · cases h
  · rw [hf] at h
    simp only [Bool.false_eq_true, if_false] at h
    cases h1 : reSearch matchPrice1At text.toList with
    | some g => rw [h1] at h; cases h; exact ⟨_, rfl⟩
    | none =>
      rw [h1] at h
      cases h2 : reSearch matchPrice2At text.toList with
      | some g => rw [h2] at h; cases h; exact ⟨_, rfl⟩
      | none =>
        rw [h2] at h
        cases h3 : reSearch matchPrice3At text.toList with
        | some g => rw [h3] at h; cases h; exact ⟨_, rfl⟩
        | none => rw [h3] at h; cases h

/-- C9: the free-entry keyword check runs first and wins over any numeric
amount also present in the text; otherwise every extracted price is rendered
as `"ab €<amount>"` (with the decimal comma of the matched amount group
normalized to a dot), and the two specified examples hold, as does a text
holding both a free keyword and a numeric amount. -/
theorem claim_C9 :
    (∀ text : String, hasFreeKeyword text = true →
        extract_price text = some "Free / Gratis") ∧
    (∀ text r : String, hasFreeKeyword text = false → extract_price text = some r →
        ∃ amt, r = "ab €" ++ amt) ∧
    extract_price "Eintritt frei" = some "Free / Gratis" ∧
    extract_price "ab €12,50" = some "ab €12.50" ∧
    extract_price "Eintritt frei statt €10" = some "Free / Gratis" ∧
    extract_price "Tickets: 15 Euro" = some "ab €15" :=
  ⟨fun _ h => extract_price_free h, fun _ _ hf h => extract_price_shape h hf,
    by decide, by decide, by decide, by decide⟩

theorem claim_C9_witness :
    extract_price "€10 aber gratis" = some "Free / Gratis" :=
  claim_C9.1 "€10 aber gratis" (by decide)

/-! ## Time extraction (claim C8) -/

theorem timeCheck_eq_some {hm : Nat × Nat} {s : String} (h : timeCheck hm = some s) :
    hm.1 ≤ 23 ∧ hm.2 ≤ 59 ∧ s = pad2 hm.1 ++ ":" ++ pad2 hm.2 := by
  unfold timeCheck at h
  split at h
  · rename_i hc
    simp only [Bool.and_eq_true, decide_eq_true_eq] at hc
    cases h
    exact ⟨hc.1, hc.2, rfl⟩
  · cases h

theorem tryTimePattern_eq_some {m : List Char → Option (Nat × Nat)} {t : List Char}
    {s : String} (h : tryTimePattern m t = some s) :
    ∃ hh mm, hh ≤ 23 ∧ mm ≤ 59 ∧ s = pad2 hh ++ ":" ++ pad2 mm := by
  unfold tryTimePattern at h
  cases hs : reSearch m t with
  | none => rw [hs] at h; cases h
  | some hm =>
    rw [hs] at h
    obtain ⟨h1, h2, h3⟩ := timeCheck_eq_some h
    exact ⟨hm.1, hm.2, h1, h2, h3⟩

theorem parse_time_eq_some {text : String} {s : String} (h : parse_time text = some s) :
    ∃ hh mm, hh ≤ 23 ∧ mm ≤ 59 ∧ s = pad2 hh ++ ":" ++ pad2 mm := by
  unfold parse_time at h
  split at h
  · cases h
  · cases h1 : tryTimePattern matchTimePrefAt (pyLower text.toList) with
    | some r => rw [h1] at h; cases h; exact tryTimePattern_eq_some h1
    | none => rw [h1] at h; exact tryTimePattern_eq_some h

/-- C8: every value `parse_time` returns is a zero-padded `"HH:MM"` with
hour at most 23 and minute at most 59 (an in-range check guards both
patterns' only `return`, so any out-of-range extraction yields `null`), and
the bare, `"Uhr"`-suffixed and `Doors/Einlass/Start/Beginn`-prefixed example
forms parse to the contained time, with `"25:00"` and `"12:60"` rejected. -/
theorem claim_C8 :
    (∀ text s : String, parse_time text = some s →
        ∃ hh mm, hh ≤ 23 ∧ mm ≤ 59 ∧ s = pad2 hh ++ ":" ++ pad2 mm) ∧
    parse_time "Einlass: 23:15" = some "23:15" ∧
    parse_time "25:00" = none ∧
    parse_time "12:60" = none ∧
    parse_time "23:00 Uhr" = some "23:00" ∧
    parse_time "doors 19:30" = some "19:30" ∧
    parse_time "Start: 20:00" = some "20:00" ∧
    parse_time "Beginn 21:30" = some "21:30" :=
  ⟨fun _ _ h => parse_time_eq_some h, by decide, by decide, by decide, by decide,
    by decide, by decide, by decide⟩

theorem claim_C8_witness :
    ∃ hh mm, hh ≤ 23 ∧ mm ≤ 59 ∧ "05:05" = pad2 hh ++ ":" ++ pad2 mm :=
  claim_C8.1 "Start 5:05" "05:05" (by decide)

/-! ## Pipeline payload preparation (claim C10) -/

/-- C10: `_prepare_event_for_pipeline` returns a record exactly when the
event has a truthy title and a truthy date (events lacking a date are
dropped here although `is_future_event` passes dateless and unparseable
dates through), but the `"23:00"` default applies only when the `'time'`
key is ABSENT from the dict: for the dict shape every scraper in the
repository produces (`'time': None` when no time was parsed), the literal
string `"None"` is interpolated, yielding the malformed
`"...TNone:00.000Z"` timestamp — contradicting the code's own
`# Default to 23:00 for club events` comment. -/
theorem claim_C10 :
    (∀ (cfg : VenueCfg) (e : PyEvent),
        (prepare_event_for_pipeline cfg e).isSome =
          (strTruthy e.title && strTruthy e.date)) ∧
    (∀ cfg : VenueCfg,
        (prepare_event_for_pipeline cfg
            { emptyEvent with title := some "X", date := some "2025-12-01" }).map
          (fun r => r.start_date_time) = some "2025-12-01TNone:00.000Z") ∧
    (∀ cfg : VenueCfg,
        (prepare_event_for_pipeline cfg
            { emptyEvent with title := some "X", date := some "2025-12-01",
                              time := none }).map
          (fun r => r.start_date_time) = some "2025-12-01T23:00:00.000Z") ∧
    (∀ today : Today, is_future_event today none = true) ∧
    (∀ today : Today, is_future_event today (some "kein datum") = true) := by
  refine ⟨?_, fun _ => rfl, fun _ => rfl, fun _ => rfl, ?_⟩
  · intro cfg e
    unfold prepare_event_for_pipeline
    cases ht : strTruthy e.title with
    | false => simp
    | true =>
      simp only [Bool.not_true, Bool.false_eq_true, if_false, Bool.true_and]
      cases hd : e.date with
      | none => simp [strTruthy]
      | some d =>
        cases hd2 : d.data with
        | nil => simp [strTruthy, String.toList, hd2]
        | cons c cs => simp [strTruthy, String.toList, hd2]
  · intro today
    unfold is_future_event
    have h1 : ("kein datum" : String).toList.isEmpty = false := by decide
    have h2 : parseIsoDate "kein datum" = none := by decide
    simp [h1, h2]

theorem claim_C10_witness :
    (prepare_event_for_pipeline ⟨"V", "A", "Wien", "Austria", "C", "S", none⟩
        { emptyEvent with title := some "X", date := some "2025-12-01" }).map
      (fun r => r.start_date_time) = some "2025-12-01TNone:00.000Z" :=
  claim_C10.2.1 ⟨"V", "A", "Wien", "Austria", "C", "S", none⟩

/-! ## Deduplication (claim C2) -/

/-- The URL a dict shows to the dedup loop:
`event.get('detail_url', '')`, with a present `None` behaving like `''`. -/
def urlOf (e : PyEvent) : String :=
  match e.detail_url with
  | some s => s
  | none => ""

/-- The amended deduplication contract, stated from its words over the
whole preceding sequence: an event with a truthy detail URL is kept iff no
earlier event of the input carries the same URL; an event without a truthy
detail URL is always kept. -/
def dedupSpecGo (prev : List PyEvent) : List PyEvent → List PyEvent
  | [] => []
  | e :: rest =>
    if urlOf e = "" ∨ ∀ p ∈ prev, urlOf p ≠ urlOf e then
      e :: dedupSpecGo (prev ++ [e]) rest
    else dedupSpecGo (prev ++ [e]) rest

theorem dedupGo_cons (seen : List String) (e : PyEvent) (rest : List PyEvent) :
    dedupGo seen (e :: rest) =
      if decide (urlOf e ≠ "") && !seen.contains (urlOf e) then
        e :: dedupGo (urlOf e :: seen) rest
      else if urlOf e = "" then e :: dedupGo seen rest
      else dedupGo seen rest := rfl

theorem dedupSpecGo_cons (prev : List PyEvent) (e : PyEvent) (rest : List PyEvent) :
    dedupSpecGo prev (e :: rest) =
      if urlOf e = "" ∨ ∀ p ∈ prev, urlOf p ≠ urlOf e then
        e :: dedupSpecGo (prev ++ [e]) rest
      else dedupSpecGo (prev ++ [e]) rest := rfl

theorem dedupGo_eq_spec (l : List PyEvent) : ∀ (seen : List String) (prev : List PyEvent),
    (∀ u : String, seen.contains u = true ↔ (u ≠ "" ∧ ∃ p ∈ prev, urlOf p = u)) →
    dedupGo seen l = dedupSpecGo prev l := by
  induction l with
  | nil => intro seen prev _; rfl
  | cons e rest ih =>
    intro seen prev hinv
    rw [dedupGo_cons, dedupSpecGo_cons]
    by_cases hu : urlOf e = ""
    · rw [if_neg (by simp [hu]), if_pos hu, if_pos (Or.inl hu)]
      refine congrArg _ (ih seen (prev ++ [e]) ?_)
      intro u
      rw [hinv u]
      constructor
      · rintro ⟨h1, p, hp, h2⟩
        exact ⟨h1, p, List.mem_append_left _ hp, h2⟩
      · rintro ⟨h1, p, hp, h2⟩
        rcases List.mem_append.mp hp with hp' | hp'
        · exact ⟨h1, p, hp', h2⟩
        · rw [List.mem_singleton.mp hp'] at h2
          exact absurd (h2 ▸ hu) h1
    · cases hc : seen.contains (urlOf e) with
      | true =>
        obtain ⟨-, p, hp, hpu⟩ := (hinv (urlOf e)).mp hc
        rw [if_neg (by simp [hc]), if_neg hu, if_neg (by
          rintro (h | h)
          · exact hu h
          · exact h p hp hpu)]
        refine ih seen (prev ++ [e]) ?_
        intro u
        rw [hinv u]
        constructor
        · rintro ⟨h1, q, hq, h2⟩
          exact ⟨h1, q, List.mem_append_left _ hq, h2⟩
        · rintro ⟨h1, q, hq, h2⟩
          rcases List.mem_append.mp hq with hq' | hq'
          · exact ⟨h1, q, hq', h2⟩
          · rw [List.mem_singleton.mp hq'] at h2
            exact ⟨h1, p, hp, hpu.trans h2⟩
      | false =>
        have hall : ∀ p ∈ prev, urlOf p ≠ urlOf e := by
          intro p hp hpe
          have : seen.contains (urlOf e) = true := (hinv (urlOf e)).mpr ⟨hu, p, hp, hpe⟩
          rw [hc] at this
          cases this
        rw [if_pos (by simp [hu, hc]), if_pos (Or.inr hall)]
        refine congrArg _ (ih (urlOf e :: seen) (prev ++ [e]) ?_)
        intro u
        simp only [List.contains_cons, Bool.or_eq_true, beq_iff_eq, hinv u]
        constructor
        · rintro (h | ⟨h1, p, hp, h2⟩)
          · exact ⟨fun he => hu (h ▸ he), e, List.mem_append_right _ (List.mem_singleton.mpr rfl),
              h.symm⟩
          · exact ⟨h1, p, List.mem_append_left _ hp, h2⟩
        · rintro ⟨h1, p, hp, h2⟩
          rcases List.mem_append.mp hp with hp' | hp'
          · exact Or.inr ⟨h1, p, hp', h2⟩
          · rw [List.mem_singleton.mp hp'] at h2
            exact Or.inl h2.symm

/-- A url-less event as every scraper initialises one (the dedup loop sees
`''` through `event.get('detail_url', '')`). -/
def dupEvent : PyEvent :=
  { emptyEvent with title := some "Same Night", date := some "2025-12-01" }

/-- C2 (counterexample): two events without a detail URL sharing the same
title and date — hence the same claimed fallback key
`(normalized_title, start_date)` — are BOTH retained by the dedup loop;
the claimed "exactly one record per dedup key" fails. -/
theorem claim_C2_counterexample :
    (dedupByUrl [dupEvent, dupEvent]).length = 2 ∧ dupEvent.detail_url = none ∧
    dupEvent.title = some "Same Night" ∧ dupEvent.date = some "2025-12-01" :=
  ⟨by decide, rfl, rfl, rfl⟩

/-- C2 (amended): the dedup key of `scrape_events` is the detail URL alone —
an event with a truthy `detail_url` is retained iff no earlier event of the
sequence carries the same URL (first-seen wins, later occurrences are
dropped), while every event without a truthy `detail_url` is retained
unconditionally; there is no `(normalized_title, start_date)` fallback key. -/
theorem claim_C2 :
    (∀ events : List PyEvent, dedupByUrl events = dedupSpecGo [] events) ∧
    dedupByUrl [{ dupEvent with detail_url := some "https://flucc.at/events/a" },
                { dupEvent with detail_url := some "https://flucc.at/events/a",
                                title := some "Other" }] =
      [{ dupEvent with detail_url := some "https://flucc.at/events/a" }] :=
  ⟨fun events => dedupGo_eq_spec events [] [] (by simp), by decide⟩

theorem claim_C2_witness :
    dedupByUrl [dupEvent, dupEvent] = dedupSpecGo [] [dupEvent, dupEvent] :=
  claim_C2.1 [dupEvent, dupEvent]

/-! ## Direct-store upsert (claim C3) -/

def cfgFlex : VenueCfg :=
  ⟨"Flex", "Augartenbrücke 1, 1010 Wien", "Wien", "Austria", "Clubs/Discos", "Electronic", none⟩

/-- An event without any URL field (so its prepared `source_url` is null). -/
def noUrlEvent : PyEvent :=
  { emptyEvent with title := some "A", date := some "2025-12-01", time := none, price := none }

def dummyDb : DbEvent :=
  ⟨none, none, "", "", "", "", none, none, "", "", none, false, none, none, none, none,
    "", none, "", ""⟩

def row0 : DbEvent :=
  (prepare_event_for_db cfgFlex "t0" noUrlEvent).getD dummyDb

/-- C3 (counterexample): the table already holds a record with exactly the
title `"A"` and `start_date_time` `"2025-12-01T23:00:00.000Z"` of the
incoming event, which has no `source_url`; the claim demands a match on the
`(title, start_date_time)` pair and an update, but the code inserts a second
record (`inserted = 1`, `updated = 0`, table grows from one row to two). -/
theorem claim_C3_counterexample :
    row0.title = some "A" ∧
    row0.start_date_time = some "2025-12-01T23:00:00.000Z" ∧
    row0.source_url = none ∧
    (save_to_database cfgFlex "t0" [⟨0, row0⟩] 1 [noUrlEvent]).2.2 =
      ⟨1, 0, 0⟩ ∧
    (save_to_database cfgFlex "t0" [⟨0, row0⟩] 1 [noUrlEvent]).1.length = 2 :=
  ⟨by decide, by decide, by decide, by decide, by decide⟩

/-- C3 (amended): the direct-store upsert matches an existing record by
exact `source_url` only, and only when the event's prepared `source_url` is
truthy: on a match the matched record is updated in place, on a miss a new
record is inserted, and an event without a truthy `source_url` is ALWAYS
inserted, whatever records exist — there is no `(title, start_date_time)`
fallback match.  (The error term accounts for the success-log line, which
raises after the write when the title is `None`.) -/
theorem claim_C3 :
    (∀ (cfg : VenueCfg) (now : String) (db : List DbRow) (fresh : Nat) (stats : SaveStats)
        (e : PyEvent) (row : DbEvent),
        prepare_event_for_db cfg now e = some row →
        strTruthy row.source_url = false →
        save_one cfg now (db, fresh, stats) e =
          (db ++ [⟨fresh, row⟩], fresh + 1,
            { stats with inserted := stats.inserted + 1,
                         errors := stats.errors + (if e.title = none then 1 else 0) })) ∧
    (∀ (cfg : VenueCfg) (now : String) (db : List DbRow) (fresh : Nat) (stats : SaveStats)
        (e : PyEvent) (row : DbEvent) (ex : DbRow),
        prepare_event_for_db cfg now e = some row →
        strTruthy row.source_url = true →
        findBySourceUrl db (pyStrOfOpt row.source_url) = some ex →
        save_one cfg now (db, fresh, stats) e =
          (db.map (fun r => if r.id = ex.id then { r with ev := row } else r), fresh,
            { stats with updated := stats.updated + 1,
                         errors := stats.errors + (if e.title = none then 1 else 0) })) ∧
    (∀ (cfg : VenueCfg) (now : String) (db : List DbRow) (fresh : Nat) (stats : SaveStats)
        (e : PyEvent) (row : DbEvent),
        prepare_event_for_db cfg now e = some row →
        strTruthy row.source_url = true →
        findBySourceUrl db (pyStrOfOpt row.source_url) = none →
        save_one cfg now (db, fresh, stats) e =
          (db ++ [⟨fresh, row⟩], fresh + 1,
            { stats with inserted := stats.inserted + 1,
                         errors := stats.errors + (if e.title = none then 1 else 0) })) := by
  refine ⟨?_, ?_, ?_⟩
  · intro cfg now db fresh stats e row hprep hsrc
    unfold save_one
    rw [hprep]
    simp only [hsrc, Bool.false_eq_true, if_false]
  · intro cfg now db fresh stats e row ex hprep hsrc hfind
    unfold save_one
    rw [hprep]
    simp only [hsrc, if_true, hfind]
  · intro cfg now db fresh stats e row hprep hsrc hfind
    unfold save_one
    rw [hprep]
    simp only [hsrc, if_true, hfind]

theorem claim_C3_witness :
    save_one cfgFlex "t0" ([], 0, ⟨0, 0, 0⟩) noUrlEvent = ([⟨0, row0⟩], 1, ⟨1, 0, 0⟩) := by
  have h := claim_C3.1 cfgFlex "t0" [] 0 ⟨0, 0, 0⟩ noUrlEvent row0 rfl rfl
  simpa using h

/-! ## Fetch-failure isolation (claim C5) -/

/-- C5: a failing fetch unit (a page whose `fetch_page` produced `None`,
which is what its catch-all handler returns on any error) contributes `[]`
and only `[]`: the run on a fetch oracle failing at one page equals the run
on the healthy oracle with just that page's contribution emptied, every
other page still being fetched and extracted; and a fully failing source
yields `[]` rather than aborting (the embedding is a total function). -/
theorem claim_C5 :
    (∀ (Soup : Type) (fetch : String → Option Soup) (extract : Soup → List PyEvent)
        (url : String),
        fetch url = none → scrapePage fetch extract url = []) ∧
    (∀ (Soup : Type) (fetch fetch' : String → Option Soup) (extract : Soup → List PyEvent)
        (bad : String),
        fetch' bad = none →
        (∀ p, p ≠ bad → fetch' p = fetch p) →
        flucc_scrape_events fetch' extract =
          dedupByUrl ((fluccPages.map (fun p =>
            if p = bad then [] else scrapePage fetch extract p)).flatten)) ∧
    (∀ (Soup : Type) (fetch : String → Option Soup) (extract : Soup → List PyEvent),
        (∀ p, fetch p = none) → flucc_scrape_events fetch extract = []) := by
  refine ⟨?_, ?_, ?_⟩
  · intro Soup fetch extract url h
    unfold scrapePage
    rw [h]
  · intro Soup fetch fetch' extract bad hbad hagree
    unfold flucc_scrape_events
    have hpt : ∀ p, scrapePage fetch' extract p =
        if p = bad then [] else scrapePage fetch extract p := by
      intro p
      by_cases hp : p = bad
      · rw [if_pos hp, hp]
        unfold scrapePage
        rw [hbad]
      · rw [if_neg hp]
        unfold scrapePage
        rw [hagree p hp]
    rw [funext hpt]
  · intro Soup fetch extract hall
    have hpt : ∀ p, scrapePage fetch extract p = [] := by
      intro p
      unfold scrapePage
      rw [hall p]
    unfold flucc_scrape_events fluccPages
    rw [funext hpt]
    rfl

theorem claim_C5_witness :
    @flucc_scrape_events (List PyEvent) (fun _ => none) (fun s => s) = [] :=
  claim_C5.2.2 (List PyEvent) (fun _ => none) (fun s => s) (fun _ => rfl)

/-! ## Venue-name normalization agrees with the specification (claim C6, part one)

The code computes `' '.join(name.lower().strip().split())`; the spec says
`trim(collapseWhitespace(lowercase(name)))`.  The following lemmas show both
equal `joinSpace` of the whitespace-separated words. -/

/-- Python `str.rstrip()` on a character list. -/
def stripTrail (s : List Char) : List Char :=
  (s.reverse.dropWhile (fun c => isSpaceC c)).reverse

theorem pyStrip_eq (s : List Char) :
    pyStrip s = stripTrail (s.dropWhile (fun c => isSpaceC c)) := rfl

theorem dropWhile_head_false {p : Char → Bool} {l : List Char} {c : Char} {r : List Char}
    (h : l.dropWhile p = c :: r) : p c = false := by
  induction l with
  | nil => cases h
  | cons a t ih =>
    rw [List.dropWhile_cons] at h
    split at h
    · exact ih h
    · cases h
      rename_i hp
      simpa using hp

theorem stripTrail_cons_of_nil {t : List Char} (c : Char) (h : stripTrail t = []) :
    stripTrail (c :: t) = if isSpaceC c then [] else [c] := by
  have ht : t.reverse.dropWhile (fun c => isSpaceC c) = [] :=
    List.reverse_eq_nil_iff.mp (by simpa [stripTrail] using congrArg List.reverse h)
  unfold stripTrail
  rw [show (c :: t).reverse = t.reverse ++ [c] from by simp, List.dropWhile_append, ht]
  simp only [List.isEmpty_nil, if_true]
  cases hc : isSpaceC c <;> simp [List.dropWhile, hc]

theorem stripTrail_cons_of_ne {t : List Char} (c : Char) (h : stripTrail t ≠ []) :
    stripTrail (c :: t) = c :: stripTrail t := by
  have ht : t.reverse.dropWhile (fun c => isSpaceC c) ≠ [] := by
    intro hx
    exact h (by simp [stripTrail, hx])
  unfold stripTrail
  rw [show (c :: t).reverse = t.reverse ++ [c] from by simp, List.dropWhile_append]
  rw [if_neg (by simpa [List.isEmpty_iff] using ht)]
  simp

theorem stripTrail_append_word {w : List Char} (X : List Char)
    (hw : ∀ c ∈ w, isSpaceC c = false) : stripTrail (w ++ X) = w ++ stripTrail X := by
  induction w with
  | nil => rfl
  | cons c w' ih =>
    have hc : isSpaceC c = false := hw c (List.mem_cons_self c w')
    have ih' := ih (fun x hx => hw x (List.mem_cons_of_mem c hx))
    show stripTrail (c :: (w' ++ X)) = _
    by_cases hnil : stripTrail (w' ++ X) = []
    · have : w' ++ stripTrail X = [] := by rw [← ih']; exact hnil
      have hw' : w' = [] := (List.append_eq_nil.mp this).1
      have hX : stripTrail X = [] := (List.append_eq_nil.mp this).2
      rw [stripTrail_cons_of_nil c hnil, if_neg (by simp [hc]), hw', hX]
      simp
    · rw [stripTrail_cons_of_ne c hnil, ih']
      simp

theorem collapseWsGo_true_eq (l : List Char) :
    collapseWsGo true l = collapseWsGo false (l.dropWhile (fun c => isSpaceC c)) := by
  induction l with
  | nil => rfl
  | cons c r ih =>
    cases hc : isSpaceC c with
    | true => rw [show collapseWsGo true (c :: r) = collapseWsGo true r from by
        simp [collapseWsGo, hc], ih, List.dropWhile_cons, hc]; simp
    | false =>
      rw [List.dropWhile_cons]
      simp only [hc, Bool.false_eq_true, if_false]
      simp [collapseWsGo, hc]

theorem pySplitWsGo_nil_dropWhile (l : List Char) :
    pySplitWsGo [] l = pySplitWsGo [] (l.dropWhile (fun c => isSpaceC c)) := by
  induction l with
  | nil => rfl
  | cons c r ih =>
    cases hc : isSpaceC c with
    | true => rw [show pySplitWsGo [] (c :: r) = pySplitWsGo [] r from by
        simp [pySplitWsGo, hc], ih, List.dropWhile_cons, hc]; simp
    | false =>
      rw [List.dropWhile_cons]
      simp [hc]

theorem pySplitWsGo_acc_ne (l : List Char) : ∀ acc : List Char, acc ≠ [] →
    pySplitWsGo acc l =
      (acc.reverse ++ l.takeWhile (fun c => !isSpaceC c)) ::
        pySplitWsGo [] (l.dropWhile (fun c => !isSpaceC c)) := by
  induction l with
  | nil =>
    intro acc hacc
    simp [pySplitWsGo, hacc]
  | cons c r ih =>
    intro acc hacc
    cases hc : isSpaceC c with
    | true =>
      rw [show pySplitWsGo acc (c :: r) = acc.reverse :: pySplitWsGo [] r from by
        simp [pySplitWsGo, hc, hacc]]
      rw [List.takeWhile_cons, List.dropWhile_cons]
      simp only [hc, Bool.not_true, Bool.false_eq_true, if_false]
      rw [show pySplitWsGo [] (c :: r) = pySplitWsGo [] r from by simp [pySplitWsGo, hc]]
      simp
    | false =>
      rw [show pySplitWsGo acc (c :: r) = pySplitWsGo (c :: acc) r from by
        simp [pySplitWsGo, hc]]
      rw [ih (c :: acc) (by simp), List.takeWhile_cons, List.dropWhile_cons]
      simp [hc]

theorem collapseWsGo_word {w : List Char} (rest : List Char)
    (hw : ∀ c ∈ w, isSpaceC c = false) :
    collapseWsGo false (w ++ rest) = w ++ collapseWsGo false rest := by
  induction w with
  | nil => rfl
  | cons c w' ih =>
    have hc : isSpaceC c = false := hw c (List.mem_cons_self c w')
    show collapseWsGo false (c :: (w' ++ rest)) = _
    rw [show collapseWsGo false (c :: (w' ++ rest)) =
        c :: collapseWsGo false (w' ++ rest) from by simp [collapseWsGo, hc]]
    rw [ih (fun x hx => hw x (List.mem_cons_of_mem c hx))]
    simp

theorem pySplitWsGo_all_space {b : List Char} (hb : ∀ c ∈ b, isSpaceC c = true) :
    ∀ acc : List Char, pySplitWsGo acc b = if acc.isEmpty then [] else [acc.reverse] := by
  induction b with
  | nil => intro acc; cases acc <;> simp [pySplitWsGo]
  | cons c b' ih =>
    intro acc
    have hc : isSpaceC c = true := hb c (List.mem_cons_self c b')
    have ih' := ih (fun x hx => hb x (List.mem_cons_of_mem c hx))
    cases acc with
    | nil =>
      rw [show pySplitWsGo [] (c :: b') = pySplitWsGo [] b' from by simp [pySplitWsGo, hc]]
      simpa using ih' []
    | cons a as =>
      rw [show pySplitWsGo (a :: as) (c :: b') = (a :: as).reverse :: pySplitWsGo [] b' from by
        simp [pySplitWsGo, hc]]
      rw [ih' []]
      simp

theorem pySplitWsGo_append_spaces (a : List Char) {b : List Char}
    (hb : ∀ c ∈ b, isSpaceC c = true) :
    ∀ acc : List Char, pySplitWsGo acc (a ++ b) = pySplitWsGo acc a := by
  induction a with
  | nil =>
    intro acc
    rw [List.nil_append, pySplitWsGo_all_space hb acc]
    cases acc <;> simp [pySplitWsGo]
  | cons c a' ih =>
    intro acc
    cases hc : isSpaceC c with
    | true =>
      cases acc with
      | nil =>
        rw [show pySplitWsGo [] ((c :: a') ++ b) = pySplitWsGo [] (a' ++ b) from by
          simp [pySplitWsGo, hc]]
        rw [show pySplitWsGo [] (c :: a') = pySplitWsGo [] a' from by simp [pySplitWsGo, hc]]
        exact ih []
      | cons x xs =>
        rw [show pySplitWsGo (x :: xs) ((c :: a') ++ b) =
            (x :: xs).reverse :: pySplitWsGo [] (a' ++ b) from by simp [pySplitWsGo, hc]]
        rw [show pySplitWsGo (x :: xs) (c :: a') =
            (x :: xs).reverse :: pySplitWsGo [] a' from by simp [pySplitWsGo, hc]]
        rw [ih []]
    | false =>
      rw [show pySplitWsGo acc ((c :: a') ++ b) = pySplitWsGo (c :: acc) (a' ++ b) from by
        simp [pySplitWsGo, hc]]
      rw [show pySplitWsGo acc (c :: a') = pySplitWsGo (c :: acc) a' from by
        simp [pySplitWsGo, hc]]
      exact ih (c :: acc)

theorem stripTrail_decomp (m : List Char) :
    ∃ b, m = stripTrail m ++ b ∧ ∀ c ∈ b, isSpaceC c = true := by
  refine ⟨(m.reverse.takeWhile (fun c => isSpaceC c)).reverse, ?_, ?_⟩
  · conv_lhs => rw [← List.reverse_reverse m,
      ← List.takeWhile_append_dropWhile (fun c => isSpaceC c) m.reverse]
    rw [List.reverse_append]
    rfl
  · intro c hc
    exact List.mem_takeWhile_imp (List.mem_reverse.mp hc)

theorem joinSpace_cons_ne (w : List Char) {ws : List (List Char)} (h : ws ≠ []) :
    joinSpace (w :: ws) = w ++ ' ' :: joinSpace ws := by
  cases ws with
  | nil => exact absurd rfl h
  | cons x xs => rfl

theorem strip_collapse_eq_join : ∀ (n : Nat) (l : List Char), l.length ≤ n →
    pyStrip (collapseWsGo false l) = joinSpace (pySplitWsGo [] l) := by
  intro n
  induction n with
  | zero =>
    intro l hl
    rw [List.length_eq_zero.mp (Nat.le_zero.mp hl)]
    rfl
  | succ n ih =>
    intro l hl
    match l with
    | [] => rfl
    | c :: r =>
      have hrlen : r.length ≤ n := by simpa using hl
      cases hc : isSpaceC c with
      | true =>
        rw [show collapseWsGo false (c :: r) = ' ' :: collapseWsGo true r from by
          simp [collapseWsGo, hc]]
        rw [collapseWsGo_true_eq r, pyStrip_eq]
        rw [show (' ' :: collapseWsGo false (r.dropWhile (fun c => isSpaceC c))).dropWhile
              (fun c => isSpaceC c) =
            (collapseWsGo false (r.dropWhile (fun c => isSpaceC c))).dropWhile
              (fun c => isSpaceC c) from by
          rw [List.dropWhile_cons]
          simp [isSpaceC]]
        rw [← pyStrip_eq]
        rw [show pySplitWsGo [] (c :: r) = pySplitWsGo [] r from by simp [pySplitWsGo, hc]]
        rw [pySplitWsGo_nil_dropWhile r]
        exact ih _ (le_trans (List.dropWhile_sublist _).length_le hrlen)
      | false =>
        have hWns : ∀ x ∈ c :: r.takeWhile (fun x => !isSpaceC x), isSpaceC x = false := by
          intro x hx
          rcases List.mem_cons.mp hx with rfl | hx'
          · exact hc
          · simpa using List.mem_takeWhile_imp hx'
        have hdecomp : c :: r =
            (c :: r.takeWhile (fun x => !isSpaceC x)) ++
              r.dropWhile (fun x => !isSpaceC x) := by
          conv_lhs => rw [← List.takeWhile_append_dropWhile (fun x => !isSpaceC x) (c :: r)]
          rw [List.takeWhile_cons, List.dropWhile_cons]
          simp [hc]
        have hLc : collapseWsGo false (c :: r) =
            (c :: r.takeWhile (fun x => !isSpaceC x)) ++
              collapseWsGo false (r.dropWhile (fun x => !isSpaceC x)) := by
          conv_lhs => rw [hdecomp]
          rw [collapseWsGo_word _ hWns]
        rw [hLc, pyStrip_eq]
        rw [show ((c :: r.takeWhile (fun x => !isSpaceC x)) ++
              collapseWsGo false (r.dropWhile (fun x => !isSpaceC x))).dropWhile
                (fun c => isSpaceC c) =
            (c :: r.takeWhile (fun x => !isSpaceC x)) ++
              collapseWsGo false (r.dropWhile (fun x => !isSpaceC x)) from by
          rw [List.cons_append, List.dropWhile_cons]
          simp [hc]]
        rw [stripTrail_append_word _ hWns]
        rw [show pySplitWsGo [] (c :: r) = pySplitWsGo [c] r from by simp [pySplitWsGo, hc]]
        rw [pySplitWsGo_acc_ne r [c] (by simp)]
        rw [show ([c].reverse ++ r.takeWhile (fun c => !isSpaceC c)) =
            c :: r.takeWhile (fun x => !isSpaceC x) from by simp]
        cases hre : r.dropWhile (fun x => !isSpaceC x) with
        | nil => simp [collapseWsGo, stripTrail, joinSpace, pySplitWsGo]
        | cons d rd =>
          have hd : isSpaceC d = true := by
            have := dropWhile_head_false hre
            simpa using this
          have hlen1 : (d :: rd).length ≤ r.length := by
            rw [← hre]
            exact (List.dropWhile_sublist _).length_le
          rw [show collapseWsGo false (d :: rd) = ' ' :: collapseWsGo true rd from by
            simp [collapseWsGo, hd]]
          rw [collapseWsGo_true_eq rd]
          rw [show pySplitWsGo [] (d :: rd) = pySplitWsGo [] rd from by
            simp [pySplitWsGo, hd]]
          rw [pySplitWsGo_nil_dropWhile rd]
          cases hrd' : rd.dropWhile (fun c => isSpaceC c) with
          | nil =>
            rw [show collapseWsGo false [] = ([] : List Char) from rfl]
            rw [show stripTrail [' '] = ([] : List Char) from by decide]
            simp [pySplitWsGo, joinSpace]
          | cons e re =>
            have he : isSpaceC e = false := dropWhile_head_false hrd'
            have hlen2 : (e :: re).length ≤ rd.length := by
              rw [← hrd']
              exact (List.dropWhile_sublist _).length_le
            have hihlen : (e :: re).length ≤ n := by
              have : (d :: rd).length ≤ n := le_trans hlen1 hrlen
              simp only [List.length_cons] at this hlen2 ⊢
              omega
            have hih := ih (e :: re) hihlen
            rw [pyStrip_eq] at hih
            rw [show collapseWsGo false (e :: re) = e :: collapseWsGo false re from by
              simp [collapseWsGo, he]] at hih ⊢
            rw [show (e :: collapseWsGo false re).dropWhile (fun c => isSpaceC c) =
                e :: collapseWsGo false re from by
              rw [List.dropWhile_cons]
              simp [he]] at hih
            have hZne : stripTrail (e :: collapseWsGo false re) ≠ [] := by
              by_cases h0 : stripTrail (collapseWsGo false re) = []
              · rw [stripTrail_cons_of_nil e h0]
                simp [he]
              · rw [stripTrail_cons_of_ne e h0]
                simp
            rw [stripTrail_cons_of_ne ' ' hZne, hih]
            have hwsne : pySplitWsGo [] (e :: re) ≠ [] := by
              rw [show pySplitWsGo [] (e :: re) = pySplitWsGo [e] re from by
                simp [pySplitWsGo, he]]
              rw [pySplitWsGo_acc_ne re [e] (by simp)]
              simp
            rw [joinSpace_cons_ne _ hwsne]

theorem split_stripTrail (m : List Char) :
    pySplitWsGo [] (stripTrail m) = pySplitWsGo [] m := by
  obtain ⟨b, hb1, hb2⟩ := stripTrail_decomp m
  conv_rhs => rw [hb1]
  rw [pySplitWsGo_append_spaces _ hb2]

/-- The code's `' '.join(name.lower().strip().split())` equals the spec's
`trim(collapseWhitespace(lowercase(name)))` on every input. -/
theorem normalize_eq_spec (name : String) :
    normalize_venue_name name = normalizeSpec name := by
  unfold normalize_venue_name normalizeSpec
  cases hn : name.toList with
  | nil => rfl
  | cons c cs =>
    rw [if_neg (by simp)]
    refine congrArg String.mk ?_
    rw [show pySplitWs (pyStrip (pyLower (c :: cs))) =
        pySplitWsGo [] (pyStrip (pyLower (c :: cs))) from rfl]
    rw [pyStrip_eq, split_stripTrail, ← pySplitWsGo_nil_dropWhile]
    exact (strip_collapse_eq_join (pyLower (c :: cs)).length _ le_rfl).symm

/-! ## The venue-link pass (claim C6, part two)

The loop body's decision depends only on the processed row's own fields
(looked up in the venues table), never on the current events table, so the
whole pass acts as an independent per-row transformer. -/

/-- The lookup outcome of the loop body for one unlinked row. -/
def linkHit (venues : List Venue) (u : EventRow) : Option Venue :=
  match u.custom_venue_name with
  | some n =>
    if n.toList.isEmpty then none
    else lookupVenue venues (normalize_venue_name n, lowerStr u.city)
  | none => none

/-- The effect of processing unlinked row `u` on one table row `e`. -/
def linkApplyE (venues : List Venue) (u : EventRow) (e : EventRow) : EventRow :=
  match linkHit venues u with
  | some v => if e.id = u.id then { e with venue_id := some v.id } else e
  | none => e

/-- The effect of the whole pass (over the unlinked snapshot `L`) on one
table row. -/
def linkElemFold (venues : List Venue) (L : List EventRow) (e : EventRow) : EventRow :=
  L.foldl (fun e u => linkApplyE venues u e) e

theorem linkStep_fst (venues : List Venue) (evs : List EventRow) (s : LinkStats)
    (u : EventRow) :
    (linkStep venues false (evs, s) u).1 = evs.map (linkApplyE venues u) := by
  unfold linkStep linkApplyE linkHit
  cases hcn : u.custom_venue_name with
  | none =>
    exact (List.map_id'' (fun e => rfl) evs).symm
  | some n =>
    by_cases hne : n.toList.isEmpty = true
    · simp only [hne, if_true]
      exact (List.map_id'' (fun e => rfl) evs).symm
    · simp only [hne, Bool.false_eq_true, if_false]
      cases hlook : lookupVenue venues (normalize_venue_name n, lowerStr u.city) with
      | some v => rfl
      | none => exact (List.map_id'' (fun e => rfl) evs).symm

theorem linkStep_snd (venues : List Venue) (dryRun : Bool) (evs : List EventRow)
    (s : LinkStats) (u : EventRow) :
    (linkStep venues dryRun (evs, s) u).2 =
      match u.custom_venue_name with
      | some n =>
        if n.toList.isEmpty then s
        else
          match lookupVenue venues (normalize_venue_name n, lowerStr u.city) with
          | some _ => { s with linked := s.linked + 1 }
          | none => { s with not_found := s.not_found + 1 }
      | none => s := by
  unfold linkStep
  cases hcn : u.custom_venue_name with
  | none => rfl
  | some n =>
    by_cases hne : n.toList.isEmpty = true
    · simp only [hne, if_true]
    · simp only [hne, Bool.false_eq_true, if_false]
      cases hlook : lookupVenue venues (normalize_venue_name n, lowerStr u.city) with
      | some v => cases dryRun <;> rfl
      | none => rfl

theorem linkApplyE_id (venues : List Venue) (u e : EventRow) :
    (linkApplyE venues u e).id = e.id := by
  unfold linkApplyE
  cases linkHit venues u with
  | some v => by_cases h : e.id = u.id <;> simp [h]
  | none => rfl

theorem linkApplyE_custom (venues : List Venue) (u e : EventRow) :
    (linkApplyE venues u e).custom_venue_name = e.custom_venue_name := by
  unfold linkApplyE
  cases linkHit venues u with
  | some v => by_cases h : e.id = u.id <;> simp [h]
  | none => rfl

theorem linkApplyE_city (venues : List Venue) (u e : EventRow) :
    (linkApplyE venues u e).city = e.city := by
  unfold linkApplyE
  cases linkHit venues u with
  | some v => by_cases h : e.id = u.id <;> simp [h]
  | none => rfl

theorem linkApplyE_venue (venues : List Venue) (u e : EventRow) :
    (linkApplyE venues u e).venue_id = e.venue_id ∨
      (linkApplyE venues u e).venue_id.isSome = true := by
  unfold linkApplyE
  cases linkHit venues u with
  | some v =>
    by_cases h : e.id = u.id
    · right
      simp [h]
    · left
      simp [h]
  | none => exact Or.inl rfl

theorem linkApplyE_mono (venues : List Venue) (u e : EventRow)
    (h : e.venue_id.isSome = true) : (linkApplyE venues u e).venue_id.isSome = true := by
  unfold linkApplyE
  cases linkHit venues u with
  | some v =>
    by_cases hid : e.id = u.id
    · simp [hid]
    · simp [hid]
      exact h
  | none => exact h

theorem linkElemFold_id (venues : List Venue) (L : List EventRow) : ∀ e : EventRow,
    (linkElemFold venues L e).id = e.id := by
  induction L with
  | nil => intro e; rfl
  | cons u L' ih =>
    intro e
    show (linkElemFold venues L' (linkApplyE venues u e)).id = e.id
    rw [ih, linkApplyE_id]

theorem linkElemFold_custom (venues : List Venue) (L : List EventRow) : ∀ e : EventRow,
    (linkElemFold venues L e).custom_venue_name = e.custom_venue_name := by
  induction L with
  | nil => intro e; rfl
  | cons u L' ih =>
    intro e
    show (linkElemFold venues L' (linkApplyE venues u e)).custom_venue_name = _
    rw [ih, linkApplyE_custom]

theorem linkElemFold_city (venues : List Venue) (L : List EventRow) : ∀ e : EventRow,
    (linkElemFold venues L e).city = e.city := by
  induction L with
  | nil => intro e; rfl
  | cons u L' ih =>
    intro e
    show (linkElemFold venues L' (linkApplyE venues u e)).city = _
    rw [ih, linkApplyE_city]

theorem linkElemFold_venue (venues : List Venue) (L : List EventRow) : ∀ e : EventRow,
    (linkElemFold venues L e).venue_id = e.venue_id ∨
      (linkElemFold venues L e).venue_id.isSome = true := by
  induction L with
  | nil => intro e; exact Or.inl rfl
  | cons u L' ih =>
    intro e
    show (linkElemFold venues L' (linkApplyE venues u e)).venue_id = e.venue_id ∨
      (linkElemFold venues L' (linkApplyE venues u e)).venue_id.isSome = true
    rcases ih (linkApplyE venues u e) with h | h
    · rcases linkApplyE_venue venues u e with h2 | h2
      · exact Or.inl (h.trans h2)
      · exact Or.inr (by rw [h]; exact h2)
    · exact Or.inr h

theorem linkElemFold_mono (venues : List Venue) (L : List EventRow) : ∀ e : EventRow,
    e.venue_id.isSome = true → (linkElemFold venues L e).venue_id.isSome = true := by
  induction L with
  | nil => intro e h; exact h
  | cons u L' ih =>
    intro e h
    exact ih (linkApplyE venues u e) (linkApplyE_mono venues u e h)

theorem linkElemFold_skip (venues : List Venue) (L : List EventRow) : ∀ e : EventRow,
    (∀ u ∈ L, u.id ≠ e.id) → linkElemFold venues L e = e := by
  induction L with
  | nil => intro e _; rfl
  | cons u L' ih =>
    intro e hL
    have h1 : linkApplyE venues u e = e := by
      unfold linkApplyE
      cases linkHit venues u with
      | some v =>
        have hne : ¬(e.id = u.id) := fun he => hL u (List.mem_cons_self u L') he.symm
        simp [hne]
      | none => rfl
    show linkElemFold venues L' (linkApplyE venues u e) = e
    rw [h1]
    exact ih e (fun x hx => hL x (List.mem_cons_of_mem u hx))

theorem linkElemFold_hit (venues : List Venue) (L : List EventRow) :
    ∀ (u : EventRow) (v : Venue) (e : EventRow), u ∈ L → linkHit venues u = some v →
      e.id = u.id → (linkElemFold venues L e).venue_id.isSome = true := by
  induction L with
  | nil => intro u v e hu; cases hu
  | cons u0 L' ih =>
    intro u v e hu hhit hid
    rcases List.mem_cons.mp hu with rfl | hu'
    · have h1 : linkApplyE venues u e = { e with venue_id := some v.id } := by
        unfold linkApplyE
        rw [hhit]
        simp [hid]
      show (linkElemFold venues L' (linkApplyE venues u e)).venue_id.isSome = true
      rw [h1]
      exact linkElemFold_mono venues L' _ rfl
    · show (linkElemFold venues L' (linkApplyE venues u0 e)).venue_id.isSome = true
      exact ih u v _ hu' hhit (by rw [linkApplyE_id]; exact hid)

theorem linkHit_congr (venues : List Venue) {a b : EventRow}
    (h1 : a.custom_venue_name = b.custom_venue_name) (h2 : a.city = b.city) :
    linkHit venues a = linkHit venues b := by
  unfold linkHit
  rw [h1, h2]

theorem linkHit_some_name {venues : List Venue} {u : EventRow} {n : String}
    (hcn : u.custom_venue_name = some n) (hne : n.toList.isEmpty = false) :
    linkHit venues u = lookupVenue venues (normalize_venue_name n, lowerStr u.city) := by
  unfold linkHit
  rw [hcn]
  show (if n.toList.isEmpty = true then none
    else lookupVenue venues (normalize_venue_name n, lowerStr u.city)) = _
  rw [hne]
  simp

theorem linkFold_fst (venues : List Venue) (L : List EventRow) :
    ∀ (evs : List EventRow) (s : LinkStats),
      (L.foldl (linkStep venues false) (evs, s)).1 = evs.map (linkElemFold venues L) := by
  induction L with
  | nil =>
    intro evs s
    exact (List.map_id'' (fun e => rfl) evs).symm
  | cons u L' ih =>
    intro evs s
    rw [List.foldl_cons]
    have h1 : linkStep venues false (evs, s) u =
        (evs.map (linkApplyE venues u), (linkStep venues false (evs, s) u).2) :=
      Prod.ext (linkStep_fst venues evs s u) rfl
    rw [h1, ih, List.map_map]
    rfl

theorem linkFold_nohit (venues : List Venue) (M : List EventRow) :
    ∀ (evs : List EventRow) (s : LinkStats), (∀ u ∈ M, linkHit venues u = none) →
      (M.foldl (linkStep venues false) (evs, s)).1 = evs ∧
      (M.foldl (linkStep venues false) (evs, s)).2.linked = s.linked := by
  induction M with
  | nil => intro evs s _; exact ⟨rfl, rfl⟩
  | cons u M' ih =>
    intro evs s hM
    have hu := hM u (List.mem_cons_self u M')
    have hstep1 : (linkStep venues false (evs, s) u).1 = evs := by
      rw [linkStep_fst]
      refine List.map_id'' (fun e => ?_) evs
      unfold linkApplyE
      rw [hu]
    have hstep2 : (linkStep venues false (evs, s) u).2.linked = s.linked := by
      rw [linkStep_snd]
      cases hcn : u.custom_venue_name with
      | none => rfl
      | some n =>
        by_cases hne : n.toList.isEmpty = true
        · simp only [hne, if_true]
        · simp only [hne, Bool.false_eq_true, if_false]
          have hne' : n.toList.isEmpty = false := by
            cases h2 : n.toList.isEmpty
            · rfl
            · exact absurd h2 hne
          have hlook : lookupVenue venues (normalize_venue_name n, lowerStr u.city) = none := by
            rw [← linkHit_some_name hcn hne']
            exact hu
          rw [hlook]
    rw [List.foldl_cons]
    have hpair : linkStep venues false (evs, s) u =
        (evs, (linkStep venues false (evs, s) u).2) :=
      Prod.ext hstep1 rfl
    rw [hpair]
    obtain ⟨ha, hb⟩ := ih evs ((linkStep venues false (evs, s) u).2)
      (fun x hx => hM x (List.mem_cons_of_mem u hx))
    exact ⟨ha, by rw [hb, hstep2]⟩

theorem linkHit_nil (u : EventRow) : linkHit [] u = none := by
  cases hcn : u.custom_venue_name with
  | none => unfold linkHit; rw [hcn]
  | some n =>
    cases h : n.toList.isEmpty with
    | true =>
      unfold linkHit
      rw [hcn]
      show (if n.toList.isEmpty = true then none
        else lookupVenue [] (normalize_venue_name n, lowerStr u.city)) = none
      rw [h]
      simp
    | false =>
      rw [linkHit_some_name hcn h]
      rfl

/-- The whole pass acts pointwise: the resulting table is the input table
with each row replaced by the effect of folding the unlinked snapshot over
it (rows never scanned are mapped to themselves). -/
theorem link_fst_char (venues : List Venue) (events : List EventRow) :
    (link_events_to_venues venues events false).1 =
      events.map (linkElemFold venues (unlinkedOf events)) := by
  unfold link_events_to_venues
  by_cases hv : venues.isEmpty = true
  · rw [if_pos hv]
    have hvnil : venues = [] := by
      cases venues with
      | nil => rfl
      | cons a l => cases hv
    subst hvnil
    refine (List.map_id'' (fun e => ?_) events).symm
    induction unlinkedOf events with
    | nil => rfl
    | cons u L' ihL =>
      show linkElemFold [] L' (linkApplyE [] u e) = e
      rw [show linkApplyE [] u e = e from by unfold linkApplyE; rw [linkHit_nil]]
      exact ihL
  · rw [if_neg hv]
    exact linkFold_fst venues (unlinkedOf events) events ⟨0, 0, 0⟩

theorem unlinkedOf_venue_none (events : List EventRow) :
    ∀ u ∈ unlinkedOf events, u.venue_id = none := by
  intro u hu
  have := List.of_mem_filter hu
  simp only [Bool.and_eq_true, Option.isNone_iff_eq_none] at this
  exact this.1

/-- A second run of the pass changes nothing and links zero events. -/
theorem link_idempotent (venues : List Venue) (events : List EventRow) :
    (link_events_to_venues venues
        (link_events_to_venues venues events false).1 false).1 =
      (link_events_to_venues venues events false).1 ∧
    (link_events_to_venues venues
        (link_events_to_venues venues events false).1 false).2.linked = 0 := by
  by_cases hv : venues.isEmpty = true
  · have hguard : ∀ evs : List EventRow,
        link_events_to_venues venues evs false = (evs, ⟨0, 0, 0⟩) := by
      intro evs
      unfold link_events_to_venues
      rw [if_pos hv]
    rw [hguard, hguard]
    exact ⟨rfl, rfl⟩
  · have hr1 : (link_events_to_venues venues events false).1 =
        events.map (linkElemFold venues (unlinkedOf events)) := link_fst_char venues events
    have hnohit : ∀ u ∈ unlinkedOf (link_events_to_venues venues events false).1,
        linkHit venues u = none := by
      intro u hu
      have humem : u ∈ (link_events_to_venues venues events false).1 :=
        List.mem_of_mem_filter hu
      have hucond := List.of_mem_filter hu
      simp only [Bool.and_eq_true, Option.isNone_iff_eq_none, Option.isSome_iff_exists]
        at hucond
      obtain ⟨hvenue, hcust⟩ := hucond
      rw [hr1] at humem
      obtain ⟨a, ha, hae⟩ := List.mem_map.mp humem
      have hacust : a.custom_venue_name = u.custom_venue_name := by
        rw [← hae, linkElemFold_custom]
      have hacity : a.city = u.city := by
        rw [← hae, linkElemFold_city]
      have havenue : a.venue_id = none := by
        rcases linkElemFold_venue venues (unlinkedOf events) a with h | h
        · rw [hae] at h
          rw [← h, hvenue]
        · rw [hae] at h
          rw [hvenue] at h
          cases h
      cases hhit : linkHit venues a with
      | none => rw [← linkHit_congr venues hacust hacity]; exact hhit
      | some v =>
        exfalso
        have haL : a ∈ unlinkedOf events := by
          refine List.mem_filter.mpr ⟨ha, ?_⟩
          simp only [Bool.and_eq_true, Option.isNone_iff_eq_none]
          refine ⟨havenue, ?_⟩
          rw [hacust]
          obtain ⟨x, hx⟩ := hcust
          simp [hx]
        have hset := linkElemFold_hit venues (unlinkedOf events) a v a haL hhit rfl
        rw [hae] at hset
        rw [hvenue] at hset
        cases hset
    have hunfold : ∀ evs : List EventRow, link_events_to_venues venues evs false =
        (unlinkedOf evs).foldl (linkStep venues false) (evs, ⟨0, 0, 0⟩) := by
      intro evs
      unfold link_events_to_venues
      rw [if_neg hv]
    rw [hunfold ((link_events_to_venues venues events false).1)]
    obtain ⟨h1, h2⟩ := linkFold_nohit venues _ _ ⟨0, 0, 0⟩ hnohit
    exact ⟨h1, h2⟩

/-- C6: venue-name normalization computed by the code equals the spec's
`trim(collapseWhitespace(lowercase(name)))` on every input (and on the
spec's example); the link pass acts as an independent per-row transformer
that scans only rows whose `venue_id` is unset (the unlinked snapshot
selects exactly those), never touches a row whose `venue_id` is already set
(under unique row ids), counts an unmatched row in `not_found` leaving its
`venue_id` unset, and is idempotent: a second run changes no row and links
zero events. -/
theorem claim_C6 :
    (∀ name : String, normalize_venue_name name = normalizeSpec name) ∧
    normalize_venue_name "  Grelle   Forelle " = normalize_venue_name "grelle forelle" ∧
    (∀ (venues : List Venue) (events : List EventRow),
        (link_events_to_venues venues events false).1 =
          events.map (linkElemFold venues (unlinkedOf events))) ∧
    (∀ events : List EventRow, ∀ u ∈ unlinkedOf events, u.venue_id = none) ∧
    (∀ (venues : List Venue) (events : List EventRow),
        (events.map EventRow.id).Nodup →
        ∀ a ∈ events, a.venue_id.isSome = true →
          linkElemFold venues (unlinkedOf events) a = a) ∧
    (∀ (venues : List Venue) (events : List EventRow),
        (link_events_to_venues venues
            (link_events_to_venues venues events false).1 false).1 =
          (link_events_to_venues venues events false).1 ∧
        (link_events_to_venues venues
            (link_events_to_venues venues events false).1 false).2.linked = 0) ∧
    link_events_to_venues [⟨"v1", "Grelle  Forelle", "Wien"⟩]
        [⟨"e1", some "  grelle   forelle ", "Wien", none⟩,
         ⟨"e2", some "Unknown Club", "Wien", none⟩] false =
      ([⟨"e1", some "  grelle   forelle ", "Wien", some "v1"⟩,
        ⟨"e2", some "Unknown Club", "Wien", none⟩], ⟨1, 0, 1⟩) := by
  refine ⟨normalize_eq_spec, by decide, link_fst_char, ?_, ?_, link_idempotent, by decide⟩
  · exact fun events => unlinkedOf_venue_none events
  · intro venues events hnd a ha hsome
    refine linkElemFold_skip venues (unlinkedOf events) a (fun u hu hid => ?_)
    have hmem : u ∈ events := List.mem_of_mem_filter hu
    have hnone := unlinkedOf_venue_none events u hu
    have hua : u = a := List.inj_on_of_nodup_map hnd hmem ha hid
    rw [hua] at hnone
    rw [hnone] at hsome
    cases hsome

theorem claim_C6_witness :
    linkElemFold [⟨"v1", "X", "Wien"⟩]
      (unlinkedOf [⟨"e1", some "X", "Wien", some "v0"⟩])
      ⟨"e1", some "X", "Wien", some "v0"⟩ = ⟨"e1", some "X", "Wien", some "v0"⟩ :=
  claim_C6.2.2.2.2.1 [⟨"v1", "X", "Wien"⟩] [⟨"e1", some "X", "Wien", some "v0"⟩]
    (by decide) ⟨"e1", some "X", "Wien", some "v0"⟩ (by decide) (by decide)

/-! ## Two-digit years in `D.M.YY` texts (claim C7) -/

theorem takeDigits_one {c : Char} {s : List Char} (h : isDigitC c = true) :
    takeDigits 1 (c :: s) = some ([c], s) := by
  simp [takeDigits, h]

theorem takeDigits_two {a b : Char} {s : List Char}
    (ha : isDigitC a = true) (hb : isDigitC b = true) :
    takeDigits 2 (a :: b :: s) = some ([a, b], s) := by
  simp [takeDigits, ha, hb]

theorem takeDigits_two_stop {a b : Char} {s : List Char}
    (ha : isDigitC a = true) (hb : isDigitC b = false) :
    takeDigits 2 (a :: b :: s) = none := by
  simp [takeDigits, ha, hb]

theorem isDigitC_dot : isDigitC '.' = false := by decide

theorem lowerChar_of_small {c : Char} (h : c.toNat < 65) : lowerChar c = c := by
  unfold lowerChar
  rw [if_neg (by simp; omega)]
  rw [if_neg (fun he => by subst he; simp at h), if_neg (fun he => by subst he; simp at h),
    if_neg (fun he => by subst he; simp at h)]

theorem isSpaceC_of_digit {c : Char} (h : isDigitC c = true) : isSpaceC c = false := by
  simp only [isDigitC, Bool.and_eq_true, decide_eq_true_eq] at h
  unfold isSpaceC
  have h1 : c ≠ ' ' := fun he => by subst he; exact absurd h (by decide)
  have h2 : c ≠ '\t' := fun he => by subst he; exact absurd h (by decide)
  have h3 : c ≠ '\n' := fun he => by subst he; exact absurd h (by decide)
  have h4 : c ≠ '\r' := fun he => by subst he; exact absurd h (by decide)
  have h5 : c ≠ '\x0b' := fun he => by subst he; exact absurd h (by decide)
  have h6 : c ≠ '\x0c' := fun he => by subst he; exact absurd h (by decide)
  simp [h1, h2, h3, h4, h5, h6]

theorem dropWhile_all_false {p : Char → Bool} {l : List Char}
    (h : ∀ c ∈ l, p c = false) : l.dropWhile p = l := by
  cases l with
  | nil => rfl
  | cons c r =>
    rw [List.dropWhile_cons, h c (List.mem_cons_self c r)]
    simp

theorem pyStrip_all_nonspace {l : List Char} (h : ∀ c ∈ l, isSpaceC c = false) :
    pyStrip l = l := by
  unfold pyStrip
  rw [dropWhile_all_false h,
    dropWhile_all_false (fun c hc => h c (List.mem_reverse.mp hc)),
    List.reverse_reverse]

theorem pyLower_invariant {l : List Char} (h : ∀ c ∈ l, lowerChar c = c) :
    pyLower l = l := by
  unfold pyLower
  calc l.map lowerChar = l.map (fun c => c) := List.map_congr_left h
    _ = l := List.map_id' l

theorem reSearch_cons {α : Type} {m : List Char → Option α} {c : Char}
    {r : List Char} {v : α} (h : m (c :: r) = some v) :
    reSearch m (c :: r) = some v := by
  unfold reSearch
  rw [h]

theorem toList_mk (l : List Char) : (String.mk l).toList = l := rfl

/-- The character shape of a `D.M.YY` text against pattern 1: 1-2 day
digits, a dot, 1-2 month digits, a dot, exactly two year digits. -/
theorem matchP1At_exact {ds ms ys : List Char}
    (hds : ∀ c ∈ ds, isDigitC c = true) (hms : ∀ c ∈ ms, isDigitC c = true)
    (hys : ∀ c ∈ ys, isDigitC c = true)
    (hdl : ds.length = 1 ∨ ds.length = 2) (hml : ms.length = 1 ∨ ms.length = 2)
    (hyl : ys.length = 2) :
    matchP1At (ds ++ '.' :: ms ++ '.' :: ys) = some (ds, ms, ys) := by
  obtain ⟨y1, y2, rfl⟩ : ∃ y1 y2, ys = [y1, y2] := by
    match ys, hyl with
    | [y1, y2], _ => exact ⟨y1, y2, rfl⟩
  have hy1 : isDigitC y1 = true := hys y1 (by simp)
  have hy2 : isDigitC y2 = true := hys y2 (by simp)
  rcases hdl with hdl | hdl
  · obtain ⟨d1, rfl⟩ : ∃ d1, ds = [d1] := by
      match ds, hdl with
      | [d1], _ => exact ⟨d1, rfl⟩
    have hd1 : isDigitC d1 = true := hds d1 (by simp)
    rcases hml with hml | hml
    · obtain ⟨m1, rfl⟩ : ∃ m1, ms = [m1] := by
        match ms, hml with
        | [m1], _ => exact ⟨m1, rfl⟩
      have hm1 : isDigitC m1 = true := hms m1 (by simp)
      simp [matchP1At, tryTake, takeDigits, hd1, hm1, hy1, hy2, isDigitC_dot]
    · obtain ⟨m1, m2, rfl⟩ : ∃ m1 m2, ms = [m1, m2] := by
        match ms, hml with
        | [m1, m2], _ => exact ⟨m1, m2, rfl⟩
      have hm1 : isDigitC m1 = true := hms m1 (by simp)
      have hm2 : isDigitC m2 = true := hms m2 (by simp)
      simp [matchP1At, tryTake, takeDigits, hd1, hm1, hm2, hy1, hy2, isDigitC_dot]
  · obtain ⟨d1, d2, rfl⟩ : ∃ d1 d2, ds = [d1, d2] := by
      match ds, hdl with
      | [d1, d2], _ => exact ⟨d1, d2, rfl⟩
    have hd1 : isDigitC d1 = true := hds d1 (by simp)
    have hd2 : isDigitC d2 = true := hds d2 (by simp)
    rcases hml with hml | hml
    · obtain ⟨m1, rfl⟩ : ∃ m1, ms = [m1] := by
        match ms, hml with
        | [m1], _ => exact ⟨m1, rfl⟩
      have hm1 : isDigitC m1 = true := hms m1 (by simp)
      simp [matchP1At, tryTake, takeDigits, hd1, hd2, hm1, hy1, hy2, isDigitC_dot]
    · obtain ⟨m1, m2, rfl⟩ : ∃ m1 m2, ms = [m1, m2] := by
        match ms, hml with
        | [m1, m2], _ => exact ⟨m1, m2, rfl⟩
      have hm1 : isDigitC m1 = true := hms m1 (by simp)
      have hm2 : isDigitC m2 = true := hms m2 (by simp)
      simp [matchP1At, tryTake, takeDigits, hd1, hd2, hm1, hm2, hy1, hy2, isDigitC_dot]

theorem parse_dmyy (today : Today) (ds ms ys : List Char)
    (hds : ∀ c ∈ ds, isDigitC c = true) (hms : ∀ c ∈ ms, isDigitC c = true)
    (hys : ∀ c ∈ ys, isDigitC c = true)
    (hdl : ds.length = 1 ∨ ds.length = 2) (hml : ms.length = 1 ∨ ms.length = 2)
    (hyl : ys.length = 2)
    (hd1 : 1 ≤ digitsVal ds) (hd31 : digitsVal ds ≤ 31)
    (hm1 : 1 ≤ digitsVal ms) (hm12 : digitsVal ms ≤ 12)
    (hy20 : 20 ≤ digitsVal ys) :
    parse_german_date today (String.mk (ds ++ '.' :: ms ++ '.' :: ys)) =
      some (fmtDate (2000 + digitsVal ys) (digitsVal ms) (digitsVal ds)) := by
  have hmatch := matchP1At_exact hds hms hys hdl hml hyl
  obtain ⟨d1, dt, rfl⟩ : ∃ d1 dt, ds = d1 :: dt := by
    cases ds with
    | nil => rcases hdl with h | h <;> exact absurd h (by simp)
    | cons a t => exact ⟨a, t, rfl⟩
  have hch : ∀ c ∈ (d1 :: dt) ++ '.' :: ms ++ '.' :: ys, isDigitC c = true ∨ c = '.' := by
    intro c hc
    rcases List.mem_append.mp hc with h | h
    · rcases List.mem_append.mp h with h1 | h1
      · exact Or.inl (hds c h1)
      · rcases List.mem_cons.mp h1 with rfl | h2
        · exact Or.inr rfl
        · exact Or.inl (hms c h2)
    · rcases List.mem_cons.mp h with rfl | h2
      · exact Or.inr rfl
      · exact Or.inl (hys c h2)
  have hlower : pyLower ((d1 :: dt) ++ '.' :: ms ++ '.' :: ys) =
      (d1 :: dt) ++ '.' :: ms ++ '.' :: ys := by
    refine pyLower_invariant (fun c hc => ?_)
    rcases hch c hc with h | rfl
    · refine lowerChar_of_small ?_
      simp only [isDigitC, Bool.and_eq_true, decide_eq_true_eq] at h
      omega
    · exact lowerChar_of_small (by decide)
  have hstrip : pyStrip ((d1 :: dt) ++ '.' :: ms ++ '.' :: ys) =
      (d1 :: dt) ++ '.' :: ms ++ '.' :: ys := by
    refine pyStrip_all_nonspace (fun c hc => ?_)
    rcases hch c hc with h | rfl
    · exact isSpaceC_of_digit h
    · decide
  have hsearch : reSearch matchP1At (d1 :: ((dt ++ '.' :: ms) ++ '.' :: ys)) =
      some (d1 :: dt, ms, ys) := by
    refine reSearch_cons ?_
    rw [show (d1 :: ((dt ++ '.' :: ms) ++ '.' :: ys)) =
        ((d1 :: dt) ++ '.' :: ms) ++ '.' :: ys from by simp]
    exact hmatch
  have hatt : attempt1 today ((d1 :: dt) ++ '.' :: ms ++ '.' :: ys) =
      some (fmtDate (2000 + digitsVal ys) (digitsVal ms) (digitsVal (d1 :: dt))) := by
    unfold attempt1
    rw [show ((d1 :: dt) ++ '.' :: ms) ++ '.' :: ys =
        d1 :: ((dt ++ '.' :: ms) ++ '.' :: ys) from by simp, hsearch]
    show processMatch today (some (p1Year ys)) (digitsVal ms) (digitsVal (d1 :: dt)) =
      some (fmtDate (2000 + digitsVal ys) (digitsVal ms) (digitsVal (d1 :: dt)))
    have hp1 : p1Year ys = 2000 + digitsVal ys := by
      unfold p1Year
      rw [if_neg (by rw [hyl]; omega)]
    rw [hp1]
    unfold processMatch
    rw [if_pos ?hc]
    case hc =>
      simp only [Bool.and_eq_true, decide_eq_true_eq]
      refine ⟨⟨⟨⟨hm1, hm12⟩, hd1⟩, hd31⟩, ?_⟩
      rw [show inferYear today (some (2000 + digitsVal ys)) (digitsVal ms) =
          2000 + digitsVal ys from rfl]
      omega
    rw [show inferYear today (some (2000 + digitsVal ys)) (digitsVal ms) =
        2000 + digitsVal ys from rfl]
  unfold parse_german_date
  rw [toList_mk]
  rw [show ((d1 :: dt) ++ '.' :: ms ++ '.' :: ys).isEmpty = false from rfl]
  simp only [Bool.false_eq_true, if_false]
  rw [hstrip, hlower, hatt]

/-- C7 (counterexample): `"26.11.19"` is a valid `D.M.Y` date text with the
two-digit year `19`, but `parse_german_date` returns `null` rather than a
date in year `2000 + 19 = 2019`, because 2019 lies below the year floor
2020 (and the fallthrough patterns reject too). -/
theorem claim_C7_counterexample :
    parse_german_date ⟨2025, 11, 20⟩ "26.11.19" = none ∧
    parse_german_date ⟨2025, 11, 20⟩ "01.01.05" = none :=
  ⟨by decide, by decide⟩

/-- C7 (amended): for every valid `D.M.YY` date text whose two-digit year
component is at least 20 — so that the resulting year `2000+YY` clears the
2020 floor — `parse_german_date` returns the date with year `2000+YY`;
for `YY ≤ 19` the floor rejects the match and the result is `null`. -/
theorem claim_C7 :
    (∀ (today : Today) (ds ms ys : List Char),
        (∀ c ∈ ds, isDigitC c = true) → (∀ c ∈ ms, isDigitC c = true) →
        (∀ c ∈ ys, isDigitC c = true) →
        ds.length = 1 ∨ ds.length = 2 → ms.length = 1 ∨ ms.length = 2 →
        ys.length = 2 →
        1 ≤ digitsVal ds → digitsVal ds ≤ 31 →
        1 ≤ digitsVal ms → digitsVal ms ≤ 12 →
        20 ≤ digitsVal ys →
        parse_german_date today (String.mk (ds ++ '.' :: ms ++ '.' :: ys)) =
          some (fmtDate (2000 + digitsVal ys) (digitsVal ms) (digitsVal ds))) ∧
    parse_german_date ⟨2025, 11, 20⟩ "26.11.25" = some "2025-11-26" ∧
    parse_german_date ⟨2025, 11, 20⟩ "5.3.99" = some "2099-03-05" ∧
    parse_german_date ⟨2025, 11, 20⟩ "26.11.19" = none :=
  ⟨fun today ds ms ys h1 h2 h3 h4 h5 h6 h7 h8 h9 h10 h11 =>
    parse_dmyy today ds ms ys h1 h2 h3 h4 h5 h6 h7 h8 h9 h10 h11,
   by decide, by decide, by decide⟩

theorem claim_C7_witness :
    parse_german_date ⟨2025, 11, 20⟩
        (String.mk (['2', '6'] ++ '.' :: ['1', '1'] ++ '.' :: ['2', '5'])) =
      some (fmtDate (2000 + digitsVal ['2', '5']) (digitsVal ['1', '1'])
        (digitsVal ['2', '6'])) :=
  claim_C7.1 ⟨2025, 11, 20⟩ ['2', '6'] ['1', '1'] ['2', '5'] (by decide) (by decide)
    (by decide) (by decide) (by decide) (by decide) (by decide) (by decide) (by decide)
    (by decide) (by decide)

end W2G
